import Mathlib

/-!
# snap-confine: loading a seccomp BPF profile (`cmd/snap-confine/seccomp-support.c`)

A shallow embedding of `validate_path_has_strict_perms`, `validate_bpfpath_is_safe` and
`sc_apply_seccomp_bpf`.

Modelling conventions.

* A C string is the list of its characters before the terminating NUL (`CStr`).
* The operating system is a `World`: a table of answers for `stat`, `fopen`, `getresuid`,
  `seteuid` and `prctl`.  The process itself is a `Proc`: its credentials and the trace of
  system calls made so far.
* `die` never returns in C (the process exits); here a computation ends in `Result.died`
  and keeps the trace up to that point.
* `debug` and `perror` only print; they are left out.
* Allocation (`strdup`, `malloc`) always succeeds: lists are unbounded, so the NULL test of
  line 70 has no counterpart.
* The `while` loop of `validate_bpfpath_is_safe` carries an iteration bound, the length of the
  tokenized string; `Fatal.out_of_fuel` marks its exhaustion, which is proved not to happen.
* `sc_apply_seccomp_bpf` is written in parts that follow its line ranges: reading the file
  (118-130), composing, validating and loading (104-130), raising privileges (132-143),
  installing the filter and dropping privileges (153-172).
-/

namespace SeccompSupport

/-- A C string: its characters before the terminating NUL. A list that holds a NUL is not the
image of a C string; the theorems below hold for every list. -/
abbrev CStr := List Char

/-- The fields of `struct stat` that the code reads. -/
structure Stat where
  st_uid : Nat
  st_gid : Nat
  st_mode : Nat
deriving DecidableEq

/-- The real, effective and saved user id of the process (values of `uid_t`). -/
structure Creds where
  ruid : Nat
  euid : Nat
  suid : Nat
deriving DecidableEq

/-- A file as seen through a stdio stream: its bytes, and, when reading it fails, the number
of bytes delivered before the failure. -/
structure FileData where
  content : List Nat
  fail_at : Option Nat
deriving DecidableEq

/-- The program descriptor `struct sock_fprog` of `linux/filter.h`: a 16-bit instruction count and
the buffer the instructions are read from. -/
structure SockFprog where
  len : Nat
  filter : List Nat
deriving DecidableEq

/-- System calls and stdio calls, in the order the process makes them. -/
inductive Event where
  | stat (path : CStr)
  | fopen (path : CStr)
  | fread (num_read : Nat)
  | fclose
  | getresuid
  | seteuid (uid : Nat) (ret : Int)
  | geteuid (ret : Nat)
  | getuid (ret : Nat)
  | prctl (prog : SockFprog) (euid : Nat) (ret : Int)
deriving DecidableEq

/-- The `die` calls of the source, one constructor per message.  `out_of_fuel` is not a `die`: it
marks the exhaustion of the loop bound of the embedding. -/
inductive Fatal where
  | cannot_format
  | needs_absolute_path
  | cannot_stat (path : CStr)
  | not_root_owned (path : CStr) (uid gid : Nat)
  | other_write (path : CStr) (mode : Nat)
  | cannot_read (path : CStr)
  | cannot_fread (path : CStr)
  | exceeds (path : CStr)
  | could_not_find_user_ids
  | seteuid_failed
  | raising_privs_did_not_work
  | prctl_failed
  | dropping_privs_did_not_work
  | out_of_fuel
deriving DecidableEq

/-- The environment of one call. `seteuid c u = none` is a failing call (credentials unchanged),
`some c1` a call returning 0 that leaves the credentials `c1`. `prctl` gives the return value
of `prctl(PR_SET_SECCOMP, SECCOMP_MODE_FILTER, &prog)`. -/
structure World where
  stat : CStr → Option Stat
  fopen : CStr → Option FileData
  getresuid_ok : Bool
  seteuid : Creds → Nat → Option Creds
  prctl : Creds → SockFprog → Int

/-- The state of the process: credentials and the calls made so far. -/
structure Proc where
  creds : Creds
  trace : List Event
deriving DecidableEq

/-- How a computation ends: it returns a value, or `die` ended the process. -/
inductive Result (α : Type) where
  | ret (a : α) (s : Proc)
  | died (f : Fatal) (s : Proc)
deriving DecidableEq

/-- A computation of the process. -/
def M (α : Type) : Type := Proc → Result α

/-- Sequencing: a `die` ends the computation. -/
def M.bind {α β : Type} (m : M α) (f : α → M β) : M β := fun s =>
  match m s with
  | .ret a s1 => f a s1
  | .died e s1 => .died e s1

instance : Monad M where
  pure a := fun s => .ret a s
  bind := M.bind

/-- The final state of a run. -/
def Result.proc {α : Type} : Result α → Proc
  | .ret _ s => s
  | .died _ s => s

/-- Whether the run returned to its caller. -/
def Result.returned {α : Type} : Result α → Bool
  | .ret _ _ => true
  | .died _ _ => false

/-- The `die` of `libsnap-confine-private/utils.h`: the process ends here. -/
def die {α : Type} (f : Fatal) : M α := fun s => .died f s

/-- Record a call in the trace. -/
def emit (e : Event) : M Unit := fun s => .ret () { s with trace := s.trace ++ [e] }

/-- The call `stat(path, &stat_buf)`: `none` is a negative return. -/
def sys_stat (w : World) (path : CStr) : M (Option Stat) := do
  emit (.stat path)
  pure (w.stat path)

/-- The call `fopen(path, "rb")`: `none` is a NULL stream. -/
def sys_fopen (w : World) (path : CStr) : M (Option FileData) := do
  emit (.fopen path)
  pure (w.fopen path)

/-- What `fread(buf, 1, cap, fp)` delivers on a fresh stream: the bytes stored, and the `ferror` and
`feof` indicators afterwards. The end-of-file indicator is set only when the stream ran out
before `cap` bytes were delivered. -/
def fread_model (fp : FileData) (cap : Nat) : List Nat × Bool × Bool :=
  match fp.fail_at with
  | some k =>
    if k < cap ∧ k ≤ fp.content.length then (fp.content.take k, true, false)
    else (fp.content.take cap, false, decide (fp.content.length < cap))
  | none => (fp.content.take cap, false, decide (fp.content.length < cap))

/-- The call `fread(bpf, 1, cap, fp)`. -/
def sys_fread (fp : FileData) (cap : Nat) : M (List Nat × Bool × Bool) := do
  let r := fread_model fp cap
  emit (.fread r.1.length)
  pure r

/-- The call `fclose(fp)`. -/
def sys_fclose : M Unit := emit .fclose

/-- The call `getresuid(&real_uid, &effective_uid, &saved_uid)`: `none` is a nonzero return. -/
def sys_getresuid (w : World) : M (Option (Nat × Nat × Nat)) := fun s =>
  .ret (if w.getresuid_ok then some (s.creds.ruid, s.creds.euid, s.creds.suid) else none)
    { s with trace := s.trace ++ [.getresuid] }

/-- The call `geteuid()`. -/
def sys_geteuid : M Nat := fun s =>
  .ret s.creds.euid { s with trace := s.trace ++ [.geteuid s.creds.euid] }

/-- The call `getuid()`. -/
def sys_getuid : M Nat := fun s =>
  .ret s.creds.ruid { s with trace := s.trace ++ [.getuid s.creds.ruid] }

/-- The call `seteuid(uid)`, returning 0 or -1. -/
def sys_seteuid (w : World) (uid : Nat) : M Int := fun s =>
  match w.seteuid s.creds uid with
  | some c => .ret 0 { creds := c, trace := s.trace ++ [.seteuid uid 0] }
  | none => .ret (-1) { s with trace := s.trace ++ [.seteuid uid (-1)] }

/-- The call `prctl(PR_SET_SECCOMP, SECCOMP_MODE_FILTER, &prog)`. -/
def sys_prctl (w : World) (prog : SockFprog) : M Int := fun s =>
  .ret (w.prctl s.creds prog)
    { s with trace := s.trace ++ [.prctl prog s.creds.euid (w.prctl s.creds prog)] }

/-- The rule of seteuid(2) on Linux: a process whose effective uid is 0 may take any effective uid,
any other process only its real, effective or saved uid; nothing else changes. -/
def linux_seteuid (c : Creds) (uid : Nat) : Option Creds :=
  if c.euid = 0 ∨ uid = c.ruid ∨ uid = c.euid ∨ uid = c.suid then some { c with euid := uid }
  else none

/-- Modelled from the spec: `sc_must_snprintf` of `libsnap-confine-private/string-utils.c`, which is
not among the sources. It formats into a buffer of `buf_size` bytes and is fatal when the
formatted text and its terminator do not fit ("if formatting would overflow that capacity,
fail fatally rather than truncate silently"). `formatted` is the text the format string
and its arguments produce. -/
def sc_must_snprintf (buf_size : Nat) (formatted : CStr) : M CStr :=
  if formatted.length < buf_size then pure formatted else die .cannot_format

/-- The call `strtok_r(str, delim, &saveptr)` on the text at `str` (or at `*saveptr` when `str` is
NULL): skip leading delimiters; no token when the text ends there; otherwise the token runs
up to the next delimiter or the end, and the saved position is just past that delimiter. -/
def strtok_r (s : CStr) (delim : CStr) : Option CStr × CStr :=
  let s1 := s.dropWhile (fun c => decide (c ∈ delim))
  if s1 = [] then (none, [])
  else
    let tok := s1.takeWhile (fun c => !decide (c ∈ delim))
    let e := s1.dropWhile (fun c => !decide (c ∈ delim))
    (some tok, e.drop 1)

/-- The constant `S_IWOTH` of `sys/stat.h`. -/
def S_IWOTH : Nat := 0o002

/-- Lines 43-56. -/
def validate_path_has_strict_perms (w : World) (path : CStr) : M Unit := do
  match (← sys_stat w path) with
  | none => die (.cannot_stat path)
  | some stat_buf =>
    if stat_buf.st_uid ≠ 0 ∨ stat_buf.st_gid ≠ 0 then
      die (.not_root_owned path stat_buf.st_uid stat_buf.st_gid)
    else if stat_buf.st_mode &&& S_IWOTH ≠ 0 then
      die (.other_write path stat_buf.st_mode)
    else
      pure ()

/-- The `while (buf_token != NULL)` loop of lines 85-98. The first argument bounds the number of
iterations. -/
def validate_loop (w : World) (checked_path_size : Nat) :
    Nat → Option CStr → CStr → CStr → M Unit
  | _, none, _, _ => pure ()
  | 0, some _, _, _ => die .out_of_fuel
  | fuel + 1, some buf_token, buf_saveptr, checked_path => do
    let prev := checked_path
    let checked_path ←
      if checked_path.length = 1 then
        sc_must_snprintf checked_path_size (prev ++ buf_token)
      else
        sc_must_snprintf checked_path_size (prev ++ ['/'] ++ buf_token)
    validate_path_has_strict_perms w checked_path
    let next := strtok_r buf_saveptr ['/']
    validate_loop w checked_path_size fuel next.1 next.2 checked_path

/-- Lines 58-102. `none` is a NULL `path`. -/
def validate_bpfpath_is_safe (w : World) (path : Option CStr) : M Unit :=
  match path with
  | none => die .needs_absolute_path
  | some path =>
    if path.length = 0 ∨ path.head? ≠ some '/' then die .needs_absolute_path
    else do
      let tokenized := path
      let checked_path_size := path.length + 1
      let checked_path : CStr := ['/']
      validate_path_has_strict_perms w checked_path
      let first := strtok_r tokenized ['/']
      validate_loop w checked_path_size tokenized.length first.1 first.2 checked_path

/-- Line 36. -/
def filter_profile_dir : CStr := "/var/lib/snapd/seccomp/bpf/".toList

/-- Line 39. -/
def MAX_BPF_SIZE : Nat := 32 * 1024

/-- The size of `char profile_path[512]`, line 108. -/
def PROFILE_PATH_SIZE : Nat := 512

/-- The size in bytes of `struct sock_filter` of `linux/filter.h`
(`__u16 code; __u8 jt; __u8 jf; __u32 k;`). -/
def sizeof_sock_filter : Nat := 8

/-- The text that the format `"%s/%s.bpf"` produces from `filter_profile_dir` and the
identifier, lines 109-110. -/
def profile_path_of (filter_profile : CStr) : CStr :=
  filter_profile_dir ++ ['/'] ++ filter_profile ++ ".bpf".toList

/-- Lines 118-130 of `sc_apply_seccomp_bpf`: read the file at `profile_path`. The result is the
contents of `bpf` up to `num_read`, and `num_read`. -/
def sc_apply_seccomp_bpf_read (w : World) (profile_path : CStr) : M (List Nat × Nat) := do
  match (← sys_fopen w profile_path) with
  | none => die (.cannot_read profile_path)
  | some fp =>
    let r ← sys_fread fp (MAX_BPF_SIZE + 1)
    if r.2.1 then die (.cannot_fread profile_path)
    else if !r.2.2 then die (.exceeds profile_path)
    else do
      sys_fclose
      pure (r.1, r.1.length)

/-- Lines 104-130 of `sc_apply_seccomp_bpf`: compose the path, validate it, read the file. -/
def sc_apply_seccomp_bpf_load (w : World) (filter_profile : CStr) : M (List Nat × Nat) := do
  let profile_path ← sc_must_snprintf PROFILE_PATH_SIZE (profile_path_of filter_profile)
  validate_bpfpath_is_safe w (some profile_path)
  sc_apply_seccomp_bpf_read w profile_path

/-- Lines 153-156: `.len` is an `unsigned short`. -/
def mk_sock_fprog (bpf : List Nat) (num_read : Nat) : SockFprog :=
  { len := (num_read / sizeof_sock_filter) % 2 ^ 16, filter := bpf }

/-- Lines 132-143 of `sc_apply_seccomp_bpf`: read the user ids and raise privileges when the
effective uid is not 0 and the saved uid is. -/
def sc_apply_seccomp_bpf_raise (w : World) : M Unit := do
  match (← sys_getresuid w) with
  | none => die .could_not_find_user_ids
  | some (_, effective_uid, saved_uid) =>
    if effective_uid ≠ 0 ∧ saved_uid = 0 then
      if (← sys_seteuid w 0) ≠ 0 then die .seteuid_failed
      if (← sys_geteuid) ≠ 0 then die .raising_privs_did_not_work

/-- Lines 153-172 of `sc_apply_seccomp_bpf`: install the filter, then drop privileges when the
effective uid is 0. -/
def sc_apply_seccomp_bpf_install (w : World) (bpf : List Nat) (num_read : Nat) : M Int := do
  let prog := mk_sock_fprog bpf num_read
  if (← sys_prctl w prog) ≠ 0 then die .prctl_failed
  if (← sys_geteuid) = 0 then
    let real_uid ← sys_getuid
    if (← sys_seteuid w real_uid) ≠ 0 then die .seteuid_failed
    if real_uid ≠ 0 then
      if (← sys_geteuid) = 0 then die .dropping_privs_did_not_work
  pure 0

/-- Lines 104-173: the three parts in sequence. -/
def sc_apply_seccomp_bpf (w : World) (filter_profile : CStr) : M Int := do
  let loaded ← sc_apply_seccomp_bpf_load w filter_profile
  sc_apply_seccomp_bpf_raise w
  sc_apply_seccomp_bpf_install w loaded.1 loaded.2

/-- A process that has made no call yet. -/
def Proc.start (c : Creds) : Proc := { creds := c, trace := [] }

/-! ## The vocabulary of the specification -/

/-- The non-empty pieces of `path` between its `/` separators. -/
def segments (path : CStr) : List CStr :=
  (path.splitOn '/').filter (fun t => decide (t ≠ []))

/-- The ancestry of `path`: `/`, then `/` followed by the first `k` segments joined by single
`/`, for `k = 1, 2, ...` up to all of them. Root first, the leaf last. -/
def ancestors (path : CStr) : List CStr :=
  (segments path).inits.map (fun ts => '/' :: ['/'].intercalate ts)

/-- Metadata is available for `p`, its owner is uid 0, its group is gid 0 and its other-write
bit (bit 1 of the mode) is clear. -/
def strict_perms (w : World) (p : CStr) : Bool :=
  match w.stat p with
  | none => false
  | some st => decide (st.st_uid = 0) && decide (st.st_gid = 0) && !st.st_mode.testBit 1

/-- The fatal error that names `p` when `p` has no strict permissions. -/
def perm_failure (w : World) (p : CStr) : Fatal :=
  match w.stat p with
  | none => .cannot_stat p
  | some st =>
    if st.st_uid ≠ 0 ∨ st.st_gid ≠ 0 then .not_root_owned p st.st_uid st.st_gid
    else .other_write p st.st_mode

/-! ## Auxiliary definitions -/

/-- Validate the paths of a list in order, stopping at the first failure. -/
def check_all (w : World) : List CStr → M Unit
  | [] => pure ()
  | p :: ps => do
    validate_path_has_strict_perms w p
    check_all w ps

/-- One step of the reconstruction at lines 88-93: append the token, with a separator unless the
path so far is a single character. -/
def extend_path (checked_path buf_token : CStr) : CStr :=
  if checked_path.length = 1 then checked_path ++ buf_token
  else checked_path ++ ['/'] ++ buf_token

/-- The paths the loop reconstructs from `checked_path` and the remaining tokens. -/
def paths_from : CStr → List CStr → List CStr
  | _, [] => []
  | cp, t :: ts => extend_path cp t :: paths_from (extend_path cp t) ts

/-- The trace with some calls appended. -/
def Proc.log (s : Proc) (es : List Event) : Proc := { s with trace := s.trace ++ es }

/-- The calls that install a filter. -/
def Event.is_prctl : Event → Bool
  | .prctl _ _ _ => true
  | _ => false

/-- A `seteuid` that, when it reports success, has set the effective uid to its argument and
changed nothing else. -/
def SeteuidSound (w : World) : Prop :=
  ∀ c uid c1, w.seteuid c uid = some c1 → c1 = { c with euid := uid }

/-! ## Example environments -/

/-- An environment where every path is owned by 0:0 with mode 0755, every file holds the same 16
bytes, `seteuid` follows the Linux rule and the kernel accepts the filter. -/
def world_trusted : World where
  stat := fun _ => some { st_uid := 0, st_gid := 0, st_mode := 0o755 }
  fopen := fun _ => some { content := List.replicate 16 0, fail_at := none }
  getresuid_ok := true
  seteuid := linux_seteuid
  prctl := fun _ _ => 0

/-- As `world_trusted`, with a profile of exactly `MAX_BPF_SIZE` bytes. -/
def world_full : World :=
  { world_trusted with
    fopen := fun _ => some { content := List.replicate 32768 0, fail_at := none } }

/-- As `world_trusted`, but `/var/lib` belongs to uid 1000. -/
def world_foreign_dir : World :=
  { world_trusted with
    stat := fun p =>
      if p = "/var/lib".toList then some { st_uid := 1000, st_gid := 0, st_mode := 0o755 }
      else some { st_uid := 0, st_gid := 0, st_mode := 0o755 } }

/-- As `world_trusted`, but the kernel accepts the filter only from a process whose effective
uid is 0. -/
def world_root_only : World :=
  { world_trusted with prctl := fun c _ => if c.euid = 0 then 0 else -1 }

/-- As `world_trusted`, but the kernel rejects the filter. -/
def world_rejecting : World :=
  { world_trusted with prctl := fun _ _ => -1 }

/-! ## Running computations -/

theorem pure_run {α : Type} (a : α) (s : Proc) : (pure a : M α) s = .ret a s := rfl

theorem bind_run {α β : Type} (m : M α) (f : α → M β) (s : Proc) :
    (m >>= f) s = match m s with
      | .ret a s1 => f a s1
      | .died e s1 => .died e s1 := rfl

theorem and_S_IWOTH (m : Nat) : (m &&& S_IWOTH = 0) ↔ m.testBit 1 = false := by
  unfold S_IWOTH
  constructor
  · intro h
    have h1 := congrArg (fun x => x.testBit 1) h
    have h2 : Nat.testBit 2 1 = true := by decide
    simpa [h2] using h1
  · intro h
    apply Nat.eq_of_testBit_eq
    intro i
    rw [Nat.testBit_and]
    by_cases hi : i = 1
    · subst hi; simp [h]
    · have : Nat.testBit 2 i = false := by
        have := @Nat.testBit_two_pow_of_ne 1 i (Ne.symm hi)
        simpa using this
      simp [this]

theorem validate_path_run (w : World) (p : CStr) (s : Proc) :
    validate_path_has_strict_perms w p s =
      if strict_perms w p then .ret () (s.log [.stat p])
      else .died (perm_failure w p) (s.log [.stat p]) := by
  unfold validate_path_has_strict_perms strict_perms perm_failure sys_stat emit Proc.log
  simp only [bind_run, pure_run]
  cases h : w.stat p with
  | none => simp [die]
  | some st =>
    by_cases h1 : st.st_uid ≠ 0 ∨ st.st_gid ≠ 0
    · simp only [h1, if_true, die]
      rcases h1 with h1 | h1 <;> simp [h1]
    · have h1' := h1
      push_neg at h1
      simp only [h1', if_false]
      by_cases h2 : st.st_mode &&& S_IWOTH ≠ 0
      · have : st.st_mode.testBit 1 = true := by
          by_contra hc
          exact h2 ((and_S_IWOTH _).2 (by simpa using hc))
        simp [h2, this, die, h1.1, h1.2]
      · have h2' : st.st_mode &&& S_IWOTH = 0 := by simpa using h2
        have := (and_S_IWOTH _).1 h2'
        simp [h2', this, h1.1, h1.2, pure_run]


theorem log_log (s : Proc) (a b : List Event) : (s.log a).log b = s.log (a ++ b) := by
  simp [Proc.log, List.append_assoc]

theorem log_nil (s : Proc) : s.log [] = s := by
  simp [Proc.log]

theorem check_all_ok (w : World) (ps : List CStr) (s : Proc)
    (h : ∀ p ∈ ps, strict_perms w p = true) :
    check_all w ps s = .ret () (s.log (ps.map Event.stat)) := by
  induction ps generalizing s with
  | nil => simp [check_all, pure_run, log_nil]
  | cons p ps ih =>
    have hp : strict_perms w p = true := h p (List.mem_cons_self _ _)
    have hps : ∀ q ∈ ps, strict_perms w q = true := fun q hq => h q (List.mem_cons_of_mem _ hq)
    simp only [check_all, bind_run, validate_path_run, hp, if_true, ih _ hps, log_log,
      List.map_cons, List.singleton_append]

theorem check_all_bad (w : World) (pre : List CStr) (bad : CStr) (post : List CStr) (s : Proc)
    (h : ∀ p ∈ pre, strict_perms w p = true) (hbad : strict_perms w bad = false) :
    check_all w (pre ++ bad :: post) s =
      .died (perm_failure w bad) (s.log ((pre ++ [bad]).map Event.stat)) := by
  induction pre generalizing s with
  | nil => simp [check_all, bind_run, validate_path_run, hbad]
  | cons p ps ih =>
    have hp : strict_perms w p = true := h p (List.mem_cons_self _ _)
    have hps : ∀ q ∈ ps, strict_perms w q = true := fun q hq => h q (List.mem_cons_of_mem _ hq)
    show check_all w (p :: (ps ++ bad :: post)) s = _
    rw [check_all]
    simp only [bind_run, validate_path_run, hp, if_true, ih _ hps, log_log]
    rfl

theorem segments_nil : segments [] = [] := by
  simp [segments, List.splitOn]

theorem segments_slash (t : CStr) : segments ('/' :: t) = segments t := by
  simp [segments, List.splitOn, List.splitOnP_cons]

theorem segments_dropWhile (s : CStr) :
    segments (s.dropWhile (fun c => decide (c ∈ ['/']))) = segments s := by
  induction s with
  | nil => rfl
  | cons c cs ih =>
    by_cases hc : c = '/'
    · subst hc
      simp only [List.dropWhile_cons, List.mem_singleton, decide_True, if_true] at ih ⊢
      rw [ih, segments_slash]
    · simp [List.dropWhile_cons, hc]

theorem strtok_r_segments (s : CStr) :
    (strtok_r s ['/']).1 = (segments s).head? ∧
      segments (strtok_r s ['/']).2 = (segments s).tail := by
  rw [← segments_dropWhile s]
  unfold strtok_r
  have hd0 : ∀ hne : s.dropWhile (fun c => decide (c ∈ ['/'])) ≠ [],
      (s.dropWhile (fun c => decide (c ∈ ['/']))).head hne ≠ '/' := by
    intro hne
    have := List.head_dropWhile_not (fun c => decide (c ∈ ['/'])) s hne
    simpa using this
  generalize s.dropWhile (fun c => decide (c ∈ ['/'])) = s1 at hd0
  by_cases h : s1 = []
  · simp [h, segments_nil]
  · simp only [h, if_false]
    have hsplit := List.takeWhile_append_dropWhile (fun c => !decide (c ∈ ['/'])) s1
    have htk : ∀ x ∈ s1.takeWhile (fun c => !decide (c ∈ ['/'])), ¬ ((x == '/') = true) := by
      intro x hx
      have := List.mem_takeWhile_imp hx
      simpa using this
    have hhead : s1.takeWhile (fun c => !decide (c ∈ ['/'])) ≠ [] := by
      cases s1 with
      | nil => exact absurd rfl h
      | cons c cs =>
        have hc : c ≠ '/' := hd0 (by simp)
        simp [List.takeWhile_cons, hc]
    have hd1 : ∀ hne : s1.dropWhile (fun c => !decide (c ∈ ['/'])) ≠ [],
        (s1.dropWhile (fun c => !decide (c ∈ ['/']))).head hne = '/' := by
      intro hne
      have := List.head_dropWhile_not (fun c => !decide (c ∈ ['/'])) s1 hne
      simpa using this
    generalize s1.takeWhile (fun c => !decide (c ∈ ['/'])) = tok at hsplit htk hhead
    generalize s1.dropWhile (fun c => !decide (c ∈ ['/'])) = e at hsplit hd1
    cases e with
    | nil =>
      rw [List.append_nil] at hsplit
      subst hsplit
      have : List.splitOn '/' tok = [tok] := List.splitOnP_eq_single (fun c => c == '/') tok htk
      have hnil : segments (List.drop 1 ([] : CStr)) = [] := segments_nil
      rw [hnil]
      simp [segments, this, hhead]
    | cons d rest =>
      have hd : d = '/' := hd1 (by simp)
      subst hd
      have : List.splitOn '/' (tok ++ '/' :: rest) = tok :: List.splitOn '/' rest :=
        List.splitOnP_first (fun c => c == '/') tok htk '/' (by simp) rest
      rw [← hsplit]
      simp [segments, this, hhead]


theorem validate_loop_none (w : World) (size fuel : Nat) (sp cp : CStr) :
    validate_loop w size fuel none sp cp = pure () := by
  cases fuel <;> rfl

theorem sc_must_snprintf_fits (size : Nat) (t : CStr) (h : t.length < size) :
    sc_must_snprintf size t = pure t := by
  simp [sc_must_snprintf, h]

theorem validate_loop_eq (w : World) (size : Nat) (fuel : Nat) (s cp : CStr)
    (hfuel : (segments s).length ≤ fuel)
    (hfit : ∀ p ∈ paths_from cp (segments s), p.length < size) :
    validate_loop w size fuel (strtok_r s ['/']).1 (strtok_r s ['/']).2 cp =
      check_all w (paths_from cp (segments s)) := by
  induction fuel generalizing s cp with
  | zero =>
    have hnil : segments s = [] := List.eq_nil_of_length_eq_zero (Nat.le_zero.mp hfuel)
    rw [(strtok_r_segments s).1, hnil]
    rfl
  | succ f ih =>
    obtain ⟨h1, h2⟩ := strtok_r_segments s
    cases hseg : segments s with
    | nil =>
      rw [h1, hseg]
      rfl
    | cons t ts =>
      rw [hseg] at h1 h2 hfit hfuel
      simp only [List.tail_cons] at h2
      have hfit1 : (extend_path cp t).length < size := hfit _ (by simp [paths_from])
      have hrec := ih (strtok_r s ['/']).2 (extend_path cp t)
        (by rw [h2]; simpa using hfuel)
        (by rw [h2]; intro p hp; exact hfit p (by simp [paths_from, hp]))
      rw [h2] at hrec
      rw [h1]
      simp only [List.head?_cons, paths_from, check_all]
      unfold validate_loop
      funext st
      by_cases hcp : cp.length = 1
      · have he : extend_path cp t = cp ++ t := by simp [extend_path, hcp]
        rw [he] at hfit1
        simp only [hcp, if_true, sc_must_snprintf_fits _ _ hfit1, bind_run, pure_run, he]
        rw [← he, hrec]
      · have he : extend_path cp t = cp ++ ['/'] ++ t := by simp [extend_path, hcp]
        rw [he] at hfit1
        simp only [hcp, if_false, sc_must_snprintf_fits _ _ hfit1, bind_run, pure_run, he]
        rw [← he, hrec]

theorem intercalate_snoc (d : CStr) (ds : List CStr) (t : CStr) :
    ['/'].intercalate ((d :: ds) ++ [t]) = ['/'].intercalate (d :: ds) ++ '/' :: t := by
  induction ds generalizing d with
  | nil => simp [List.intercalate, List.intersperse]
  | cons e es ih =>
    have := ih e
    simp only [List.intercalate, List.cons_append, List.intersperse_cons₂, List.flatten_cons,
      List.append_assoc] at this ⊢
    rw [this]

theorem extend_path_P (done : List CStr) (t : CStr) (hdone : ∀ d ∈ done, d ≠ []) :
    extend_path ('/' :: ['/'].intercalate done) t = '/' :: ['/'].intercalate (done ++ [t]) := by
  cases done with
  | nil => simp [extend_path, List.intercalate, List.intersperse]
  | cons d ds =>
    have hd : d ≠ [] := hdone d (List.mem_cons_self _ _)
    have hlen : ('/' :: ['/'].intercalate (d :: ds)).length ≠ 1 := by
      cases d with
      | nil => exact absurd rfl hd
      | cons c cs =>
        cases ds <;> simp [List.intercalate, List.intersperse]
    have hne : ['/'].intercalate (d :: ds) ≠ [] := by simpa using hlen
    rw [intercalate_snoc]
    simp [extend_path, hne]

theorem paths_from_P (done ts : List CStr) (hdone : ∀ d ∈ done, d ≠ [])
    (hts : ∀ t ∈ ts, t ≠ []) :
    paths_from ('/' :: ['/'].intercalate done) ts =
      ts.inits.tail.map (fun i => '/' :: ['/'].intercalate (done ++ i)) := by
  induction ts generalizing done with
  | nil => simp [paths_from]
  | cons t ts ih =>
    have ht : t ≠ [] := hts t (List.mem_cons_self _ _)
    have hts1 : ∀ u ∈ ts, u ≠ [] := fun u hu => hts u (List.mem_cons_of_mem _ hu)
    have hdone1 : ∀ d ∈ done ++ [t], d ≠ [] := by
      intro d hd
      rcases List.mem_append.mp hd with h | h
      · exact hdone d h
      · simp at h; rw [h]; exact ht
    rw [paths_from, extend_path_P done t hdone, ih (done ++ [t]) hdone1 hts1]
    have hin : ts.inits = [] :: ts.inits.tail := by
      cases ts <;> simp [List.inits_cons]
    rw [List.inits_cons, List.tail_cons]
    conv_rhs => rw [hin]
    simp [List.map_map, Function.comp_def]

theorem segments_ne_nil (s : CStr) : ∀ t ∈ segments s, t ≠ [] := by
  intro t ht
  simp [segments] at ht
  exact ht.2

theorem ancestors_eq (path : CStr) :
    ancestors path = ['/'] :: paths_from ['/'] (segments path) := by
  have h := paths_from_P [] (segments path) (by simp) (segments_ne_nil path)
  have h0 : ('/' :: ['/'].intercalate ([] : List CStr)) = ['/'] := by
    simp [List.intercalate, List.intersperse]
  rw [h0] at h
  rw [h, ancestors]
  have hin : (segments path).inits = [] :: (segments path).inits.tail := by
    cases segments path <;> simp [List.inits_cons]
  conv_lhs => rw [hin]
  simp [List.intercalate, List.intersperse]


theorem length_P (l : List CStr) :
    ('/' :: ['/'].intercalate l).length =
      if l = [] then 1 else (l.map (fun t => t.length + 1)).sum := by
  induction l with
  | nil => simp [List.intercalate, List.intersperse]
  | cons d ds ih =>
    cases ds with
    | nil => simp [List.intercalate, List.intersperse]
    | cons e es =>
      simp only [List.intercalate, List.intersperse_cons₂, List.flatten_cons, List.length_cons,
        List.length_append, List.map_cons, List.sum_cons, if_false, List.cons_ne_nil,
        List.length_nil] at ih ⊢
      omega

theorem weight_sublist {l1 l2 : List CStr} (h : l1.Sublist l2) :
    (l1.map (fun t => t.length + 1)).sum ≤ (l2.map (fun t => t.length + 1)).sum := by
  induction h with
  | slnil => simp
  | cons a _ ih => simp only [List.map_cons, List.sum_cons]; omega
  | cons₂ a _ ih => simp only [List.map_cons, List.sum_cons]; omega

theorem length_P_sublist {l1 l2 : List CStr} (h : l1.Sublist l2) :
    ('/' :: ['/'].intercalate l1).length ≤ ('/' :: ['/'].intercalate l2).length := by
  by_cases h1 : l1 = []
  · subst h1
    simp [List.intercalate, List.intersperse]
  · have h2 : l2 ≠ [] := by
      intro h2
      subst h2
      exact h1 (List.sublist_nil.mp h)
    rw [length_P, length_P]
    simp only [h1, h2, if_false]
    exact weight_sublist h

theorem length_le_weight (l : List CStr) : l.length ≤ (l.map (fun t => t.length + 1)).sum := by
  induction l with
  | nil => simp
  | cons d ds ih => simp only [List.map_cons, List.sum_cons, List.length_cons]; omega

theorem length_P_segments (t : CStr) :
    ('/' :: ['/'].intercalate (segments t)).length ≤ t.length + 1 := by
  have h1 : (segments t).Sublist (t.splitOn '/') := List.filter_sublist _
  have h2 := length_P_sublist h1
  rw [List.intercalate_splitOn] at h2
  simpa using h2

theorem ancestors_length_le (path : CStr) (habs : path.head? = some '/') :
    ∀ p ∈ ancestors path, p.length ≤ path.length := by
  intro p hp
  cases path with
  | nil => simp at habs
  | cons c t =>
    simp only [List.head?_cons, Option.some.injEq] at habs
    subst habs
    simp only [ancestors, List.mem_map, List.mem_inits] at hp
    obtain ⟨i, hi, rfl⟩ := hp
    rw [segments_slash] at hi
    have := length_P_sublist hi.sublist
    have := length_P_segments t
    simp only [List.length_cons] at *
    omega

theorem segments_length_le (path : CStr) (habs : path.head? = some '/') :
    (segments path).length ≤ path.length := by
  cases path with
  | nil => simp at habs
  | cons c t =>
    simp only [List.head?_cons, Option.some.injEq] at habs
    subst habs
    rw [segments_slash]
    have h1 := length_P_segments t
    have h2 := length_le_weight (segments t)
    rw [length_P] at h1
    by_cases h : segments t = []
    · simp [h]
    · simp only [h, if_false] at h1
      simp only [List.length_cons]
      omega

theorem validate_bpfpath_is_safe_eq (w : World) (path : CStr) (habs : path.head? = some '/') :
    validate_bpfpath_is_safe w (some path) = check_all w (ancestors path) := by
  have hne : path.length ≠ 0 := by
    cases path with
    | nil => simp at habs
    | cons c t => simp
  have hfit : ∀ p ∈ paths_from ['/'] (segments path), p.length < path.length + 1 := by
    intro p hp
    have := ancestors_length_le path habs p (by rw [ancestors_eq]; exact List.mem_cons_of_mem _ hp)
    omega
  have hloop := validate_loop_eq w (path.length + 1) path.length path ['/']
    (segments_length_le path habs) hfit
  unfold validate_bpfpath_is_safe
  simp only [hne, habs, ne_eq, not_true_eq_false, or_self, if_false]
  rw [ancestors_eq, check_all]
  funext st
  simp only [bind_run, hloop]


theorem exists_first_bad (P : CStr → Bool) (l : List CStr) (h : ¬ ∀ p ∈ l, P p = true) :
    ∃ pre bad post, l = pre ++ bad :: post ∧ (∀ p ∈ pre, P p = true) ∧ P bad = false := by
  induction l with
  | nil => exact absurd (by simp) h
  | cons a l ih =>
    by_cases ha : P a = true
    · have hl : ¬ ∀ p ∈ l, P p = true := by
        intro hl
        apply h
        intro p hp
        rcases List.mem_cons.mp hp with rfl | hp
        · exact ha
        · exact hl p hp
      obtain ⟨pre, bad, post, rfl, hpre, hbad⟩ := ih hl
      refine ⟨a :: pre, bad, post, rfl, ?_, hbad⟩
      intro p hp
      rcases List.mem_cons.mp hp with rfl | hp
      · exact ha
      · exact hpre p hp
    · exact ⟨[], a, l, rfl, by simp, by simpa using ha⟩

theorem perm_failure_cases (w : World) (p : CStr) :
    perm_failure w p = .cannot_stat p ∨ (∃ u g, perm_failure w p = .not_root_owned p u g) ∨
      (∃ m, perm_failure w p = .other_write p m) := by
  unfold perm_failure
  cases w.stat p with
  | none => exact Or.inl rfl
  | some st =>
    by_cases h : st.st_uid ≠ 0 ∨ st.st_gid ≠ 0
    · exact Or.inr (Or.inl ⟨st.st_uid, st.st_gid, by simp only [h, if_true]⟩)
    · exact Or.inr (Or.inr ⟨st.st_mode, by simp only [h, if_false]⟩)

/-- C1: for a non-empty path that begins with `/`, `validate_bpfpath_is_safe` returns exactly
when `/` and every reconstructed ancestor up to the leaf has strict permissions; it then has
queried exactly the ancestry, in order. When some ancestor fails, the run dies with the
error naming the first failing one, and the queries stop there. -/
theorem validate_bpfpath_is_safe_returns_iff (w : World) (path : CStr) (s : Proc)
    (hne : path ≠ []) (habs : path.head? = some '/') :
    ((validate_bpfpath_is_safe w (some path) s).returned = true ↔
        ∀ p ∈ ancestors path, strict_perms w p = true) ∧
    ((∀ p ∈ ancestors path, strict_perms w p = true) →
        validate_bpfpath_is_safe w (some path) s =
          .ret () (s.log ((ancestors path).map Event.stat))) ∧
    (∀ pre bad post, ancestors path = pre ++ bad :: post →
        (∀ p ∈ pre, strict_perms w p = true) → strict_perms w bad = false →
        validate_bpfpath_is_safe w (some path) s =
          .died (perm_failure w bad) (s.log ((pre ++ [bad]).map Event.stat))) := by
  have _ := hne
  rw [validate_bpfpath_is_safe_eq w path habs]
  refine ⟨⟨?_, ?_⟩, ?_, ?_⟩
  · intro hret
    by_contra hall
    obtain ⟨pre, bad, post, hsplit, hpre, hbad⟩ := exists_first_bad (strict_perms w) _ hall
    rw [hsplit, check_all_bad w pre bad post s hpre hbad] at hret
    simp [Result.returned] at hret
  · intro hall
    rw [check_all_ok w _ s hall]
    rfl
  · intro hall
    exact check_all_ok w _ s hall
  · intro pre bad post hsplit hpre hbad
    rw [hsplit]
    exact check_all_bad w pre bad post s hpre hbad

/-- C1 at `/var/lib` in an environment where every path is trusted: the validation returns. -/
theorem validate_bpfpath_is_safe_returns_iff_witness :
    (validate_bpfpath_is_safe world_trusted (some "/var/lib".toList)
        (Proc.start ⟨1000, 1000, 0⟩)).returned = true :=
  (validate_bpfpath_is_safe_returns_iff world_trusted "/var/lib".toList
    (Proc.start ⟨1000, 1000, 0⟩) (by decide) (by decide)).1.2 (by decide)

/-- C10: for a non-empty path that begins with `/`, every ancestor the loop reconstructs is no
longer than the path, so with its terminator it fits the buffer of `strlen(path) + 1` bytes
and `sc_must_snprintf` returns it; a run of the validation that dies does so with a `stat`,
ownership or other-write error about one of the ancestors, never with a formatting error
and never by exhausting the loop bound; the whole run is the run that validates the
ancestors one after the other, with no formatting step in it. -/
theorem validate_bpfpath_is_safe_format_fits (w : World) (path : CStr) (s : Proc)
    (hne : path ≠ []) (habs : path.head? = some '/') :
    (∀ p ∈ ancestors path, p.length ≤ path.length ∧
        sc_must_snprintf (path.length + 1) p s = .ret p s) ∧
    (∀ f s1, validate_bpfpath_is_safe w (some path) s = .died f s1 →
        ∃ p ∈ ancestors path, strict_perms w p = false ∧
          (f = .cannot_stat p ∨ (∃ u g, f = .not_root_owned p u g) ∨
            (∃ m, f = .other_write p m))) ∧
    validate_bpfpath_is_safe w (some path) s = check_all w (ancestors path) s := by
  have _ := hne
  refine ⟨?_, ?_, by rw [validate_bpfpath_is_safe_eq w path habs]⟩
  · intro p hp
    have hlen := ancestors_length_le path habs p hp
    refine ⟨hlen, ?_⟩
    rw [sc_must_snprintf_fits _ _ (by omega)]
    rfl
  · intro f s1 hrun
    rw [validate_bpfpath_is_safe_eq w path habs] at hrun
    by_cases hall : ∀ p ∈ ancestors path, strict_perms w p = true
    · rw [check_all_ok w _ s hall] at hrun
      cases hrun
    · obtain ⟨pre, bad, post, hsplit, hpre, hbad⟩ := exists_first_bad (strict_perms w) _ hall
      rw [hsplit, check_all_bad w pre bad post s hpre hbad] at hrun
      injection hrun with hf _
      refine ⟨bad, by rw [hsplit]; simp, hbad, ?_⟩
      rw [← hf]
      exact perm_failure_cases w bad

/-- C10 at `/var//lib/`, a path of 10 characters: its ancestor `/var/lib` is not longer and is
formatted into the 11-byte buffer. -/
theorem validate_bpfpath_is_safe_format_fits_witness :
    "/var/lib".toList ∈ ancestors "/var//lib/".toList ∧
      "/var/lib".toList.length ≤ "/var//lib/".toList.length ∧
      sc_must_snprintf ("/var//lib/".toList.length + 1) "/var/lib".toList
        (Proc.start ⟨1000, 1000, 0⟩) = .ret "/var/lib".toList (Proc.start ⟨1000, 1000, 0⟩) :=
  ⟨by decide,
    (validate_bpfpath_is_safe_format_fits world_trusted "/var//lib/".toList
      (Proc.start ⟨1000, 1000, 0⟩) (by decide) (by decide)).1 "/var/lib".toList (by decide)⟩


theorem ite_run {α : Type} (c : Prop) [Decidable c] (a b : M α) (s : Proc) :
    (if c then a else b) s = if c then a s else b s := by
  split <;> rfl

theorem die_run {α : Type} (f : Fatal) (s : Proc) : (die f : M α) s = .died f s := rfl

theorem read_run (w : World) (path : CStr) (s : Proc) :
    sc_apply_seccomp_bpf_read w path s =
      match w.fopen path with
      | none => .died (.cannot_read path) (s.log [.fopen path])
      | some fp =>
        if (fread_model fp (MAX_BPF_SIZE + 1)).2.1 = true then
          .died (.cannot_fread path)
            (s.log [.fopen path, .fread (fread_model fp (MAX_BPF_SIZE + 1)).1.length])
        else if (fread_model fp (MAX_BPF_SIZE + 1)).2.2 = false then
          .died (.exceeds path)
            (s.log [.fopen path, .fread (fread_model fp (MAX_BPF_SIZE + 1)).1.length])
        else
          .ret ((fread_model fp (MAX_BPF_SIZE + 1)).1, (fread_model fp (MAX_BPF_SIZE + 1)).1.length)
            (s.log [.fopen path, .fread (fread_model fp (MAX_BPF_SIZE + 1)).1.length, .fclose]) := by
  unfold sc_apply_seccomp_bpf_read sys_fopen sys_fread sys_fclose emit
  simp only [bind_run, pure_run]
  cases w.fopen path with
  | none => simp [die, Proc.log]
  | some fp =>
    simp only [bind_run, pure_run]
    by_cases h1 : (fread_model fp (MAX_BPF_SIZE + 1)).2.1 = true
    · simp [h1, die, Proc.log]
    · by_cases h2 : (fread_model fp (MAX_BPF_SIZE + 1)).2.2 = false
      · simp [h1, h2, die, Proc.log]
      · simp [h1, h2, bind_run, pure_run, Proc.log]

theorem raise_run (w : World) (s : Proc) :
    sc_apply_seccomp_bpf_raise w s =
      if w.getresuid_ok = false then .died .could_not_find_user_ids (s.log [.getresuid])
      else if s.creds.euid ≠ 0 ∧ s.creds.suid = 0 then
        match w.seteuid s.creds 0 with
        | none => .died .seteuid_failed (s.log [.getresuid, .seteuid 0 (-1)])
        | some c1 =>
          if c1.euid ≠ 0 then
            .died .raising_privs_did_not_work
              { creds := c1, trace := s.trace ++ [.getresuid, .seteuid 0 0, .geteuid c1.euid] }
          else
            .ret () { creds := c1, trace := s.trace ++ [.getresuid, .seteuid 0 0, .geteuid c1.euid] }
      else .ret () (s.log [.getresuid]) := by
  unfold sc_apply_seccomp_bpf_raise sys_getresuid sys_seteuid sys_geteuid
  simp only [bind_run, pure_run]
  by_cases h0 : w.getresuid_ok = false
  · simp [h0, die_run, Proc.log]
  · simp only [h0, if_false]
    have h0' : w.getresuid_ok = true := by simpa using h0
    simp only [h0', if_true]
    by_cases h1 : s.creds.euid ≠ 0 ∧ s.creds.suid = 0
    · simp only [h1, and_self, if_true, bind_run, ne_eq, not_false_eq_true, ite_run]
      cases w.seteuid s.creds 0 with
      | none => simp [die_run, bind_run, Proc.log]
      | some c1 =>
        by_cases h2 : c1.euid ≠ 0
        · simp [h2, die_run, pure_run, bind_run, ite_run]
        · simp [h2, die_run, pure_run, bind_run, ite_run]
    · simp only [h1, if_false, ite_run, pure_run, Proc.log]
      simp

theorem install_run (w : World) (bpf : List Nat) (n : Nat) (s : Proc) :
    sc_apply_seccomp_bpf_install w bpf n s =
      if w.prctl s.creds (mk_sock_fprog bpf n) ≠ 0 then
        .died .prctl_failed
          (s.log [.prctl (mk_sock_fprog bpf n) s.creds.euid (w.prctl s.creds (mk_sock_fprog bpf n))])
      else if s.creds.euid ≠ 0 then
        .ret 0 (s.log [.prctl (mk_sock_fprog bpf n) s.creds.euid 0, .geteuid s.creds.euid])
      else
        match w.seteuid s.creds s.creds.ruid with
        | none =>
          .died .seteuid_failed
            (s.log [.prctl (mk_sock_fprog bpf n) 0 0, .geteuid 0, .getuid s.creds.ruid,
              .seteuid s.creds.ruid (-1)])
        | some c2 =>
          if s.creds.ruid = 0 then
            .ret 0 { creds := c2, trace := s.trace ++ [.prctl (mk_sock_fprog bpf n) 0 0,
              .geteuid 0, .getuid s.creds.ruid, .seteuid s.creds.ruid 0] }
          else if c2.euid = 0 then
            .died .dropping_privs_did_not_work
              { creds := c2, trace := s.trace ++ [.prctl (mk_sock_fprog bpf n) 0 0,
                .geteuid 0, .getuid s.creds.ruid, .seteuid s.creds.ruid 0, .geteuid c2.euid] }
          else
            .ret 0 { creds := c2, trace := s.trace ++ [.prctl (mk_sock_fprog bpf n) 0 0,
                .geteuid 0, .getuid s.creds.ruid, .seteuid s.creds.ruid 0, .geteuid c2.euid] } := by
  unfold sc_apply_seccomp_bpf_install sys_prctl sys_seteuid sys_geteuid sys_getuid
  simp only [bind_run, pure_run, ite_run]
  by_cases h0 : w.prctl s.creds (mk_sock_fprog bpf n) ≠ 0
  · simp [h0, die_run, bind_run, Proc.log]
  · have h0' : w.prctl s.creds (mk_sock_fprog bpf n) = 0 := by simpa using h0
    by_cases h1 : s.creds.euid ≠ 0
    · simp [h0', h1, die_run, Proc.log, pure_run, bind_run, ite_run]
    · have h1' : s.creds.euid = 0 := by simpa using h1
      simp only [h0', h1', ne_eq, not_true_eq_false, if_false, if_true, pure_run, bind_run,
        ite_run]
      cases w.seteuid s.creds s.creds.ruid with
      | none => simp [die_run, bind_run, Proc.log]
      | some c2 =>
        by_cases h2 : s.creds.ruid = 0
        · simp [h2, pure_run, bind_run, ite_run]
        · by_cases h3 : c2.euid = 0
          · simp [h2, h3, die_run, pure_run, bind_run, ite_run]
          · simp [h2, h3, die_run, pure_run, bind_run, ite_run]


theorem profile_path_of_head (id : CStr) : (profile_path_of id).head? = some '/' := rfl

theorem fread_model_ok (fp : FileData) (cap : Nat)
    (h1 : (fread_model fp cap).2.1 = false) (h2 : (fread_model fp cap).2.2 = true) :
    fp.content.length < cap ∧ (fread_model fp cap).1 = fp.content := by
  unfold fread_model at h1 h2 ⊢
  cases hk : fp.fail_at with
  | none =>
    simp only [hk, decide_eq_true_eq] at h2 ⊢
    exact ⟨h2, List.take_of_length_le (by omega)⟩
  | some k =>
    simp only [hk] at h1 h2 ⊢
    by_cases hc : k < cap ∧ k ≤ fp.content.length
    · simp [hc] at h1
    · simp only [hc, if_false, decide_eq_true_eq] at h2 ⊢
      exact ⟨h2, List.take_of_length_le (by omega)⟩

theorem fread_model_readable (fp : FileData) (cap : Nat) (h : fp.fail_at = none) :
    fread_model fp cap = (fp.content.take cap, false, decide (fp.content.length < cap)) := by
  simp [fread_model, h]

theorem load_run (w : World) (id : CStr) (s : Proc) :
    sc_apply_seccomp_bpf_load w id s =
      if (profile_path_of id).length < PROFILE_PATH_SIZE then
        match check_all w (ancestors (profile_path_of id)) s with
        | .ret _ s1 => sc_apply_seccomp_bpf_read w (profile_path_of id) s1
        | .died f s1 => .died f s1
      else .died .cannot_format s := by
  unfold sc_apply_seccomp_bpf_load sc_must_snprintf
  by_cases h : (profile_path_of id).length < PROFILE_PATH_SIZE
  · simp only [h, if_true, bind_run, pure_run,
      validate_bpfpath_is_safe_eq w _ (profile_path_of_head id)]
    cases check_all w (ancestors (profile_path_of id)) s <;> rfl
  · simp only [h, if_false, bind_run, die_run]

theorem load_ret (w : World) (id : CStr) (s s1 : Proc) (x : List Nat × Nat)
    (h : sc_apply_seccomp_bpf_load w id s = .ret x s1) :
    (profile_path_of id).length < PROFILE_PATH_SIZE ∧
    (∀ p ∈ ancestors (profile_path_of id), strict_perms w p = true) ∧
    ∃ fp, w.fopen (profile_path_of id) = some fp ∧
      (fread_model fp (MAX_BPF_SIZE + 1)).2.1 = false ∧
      fp.content.length ≤ MAX_BPF_SIZE ∧ x = (fp.content, fp.content.length) ∧
      s1 = s.log ((ancestors (profile_path_of id)).map Event.stat ++
        [.fopen (profile_path_of id), .fread fp.content.length, .fclose]) := by
  rw [load_run] at h
  by_cases hfit : (profile_path_of id).length < PROFILE_PATH_SIZE
  · simp only [hfit, if_true] at h
    by_cases hall : ∀ p ∈ ancestors (profile_path_of id), strict_perms w p = true
    · rw [check_all_ok w _ s hall] at h
      simp only [read_run] at h
      cases hopen : w.fopen (profile_path_of id) with
      | none => simp [hopen] at h
      | some fp =>
        simp only [hopen] at h
        by_cases h1 : (fread_model fp (MAX_BPF_SIZE + 1)).2.1 = true
        · simp [h1] at h
        · by_cases h2 : (fread_model fp (MAX_BPF_SIZE + 1)).2.2 = false
          · simp [h1, h2] at h
          · have h1' : (fread_model fp (MAX_BPF_SIZE + 1)).2.1 = false := by simpa using h1
            have h2' : (fread_model fp (MAX_BPF_SIZE + 1)).2.2 = true := by simpa using h2
            obtain ⟨hlen, hbytes⟩ := fread_model_ok fp _ h1' h2'
            simp only [h1', h2', hbytes] at h
            simp only [Bool.false_eq_true, Bool.true_eq_false, if_false, Result.ret.injEq] at h
            refine ⟨hfit, hall, fp, rfl, h1', by omega, h.1.symm, ?_⟩
            rw [← h.2, log_log]
    · obtain ⟨pre, bad, post, hsplit, hpre, hbad⟩ := exists_first_bad (strict_perms w) _ hall
      rw [hsplit, check_all_bad w pre bad post s hpre hbad] at h
      simp at h
  · simp [hfit] at h

theorem load_readable (w : World) (id : CStr) (s : Proc) (fp : FileData)
    (hfit : (profile_path_of id).length < PROFILE_PATH_SIZE)
    (htrust : ∀ p ∈ ancestors (profile_path_of id), strict_perms w p = true)
    (hopen : w.fopen (profile_path_of id) = some fp) (hread : fp.fail_at = none) :
    sc_apply_seccomp_bpf_load w id s =
      if fp.content.length ≤ MAX_BPF_SIZE then
        .ret (fp.content, fp.content.length)
          (s.log ((ancestors (profile_path_of id)).map Event.stat ++
            [.fopen (profile_path_of id), .fread fp.content.length, .fclose]))
      else
        .died (.exceeds (profile_path_of id))
          (s.log ((ancestors (profile_path_of id)).map Event.stat ++
            [.fopen (profile_path_of id), .fread (MAX_BPF_SIZE + 1)])) := by
  rw [load_run]
  simp only [hfit, if_true, check_all_ok w _ s htrust, read_run, hopen,
    fread_model_readable fp _ hread, log_log]
  by_cases hlen : fp.content.length ≤ MAX_BPF_SIZE
  · have h1 : fp.content.length < MAX_BPF_SIZE + 1 := by omega
    have h2 : fp.content.take (MAX_BPF_SIZE + 1) = fp.content :=
      List.take_of_length_le (by omega)
    simp [hlen, h1, h2]
  · have h1 : ¬ fp.content.length < MAX_BPF_SIZE + 1 := by omega
    have h2 : (fp.content.take (MAX_BPF_SIZE + 1)).length = MAX_BPF_SIZE + 1 := by
      rw [List.length_take]; omega
    simp [hlen, h1, h2]

/-- Every run of the load step that dies has only queried metadata, or has tried to open the
composed path after querying its whole ancestry. -/
theorem load_died (w : World) (id : CStr) (s s1 : Proc) (f : Fatal)
    (h : sc_apply_seccomp_bpf_load w id s = .died f s1) :
    ∃ es, s1 = s.log es ∧ ∀ e ∈ es, e.is_prctl = false := by
  rw [load_run] at h
  by_cases hfit : (profile_path_of id).length < PROFILE_PATH_SIZE
  · simp only [hfit, if_true] at h
    by_cases hall : ∀ p ∈ ancestors (profile_path_of id), strict_perms w p = true
    · rw [check_all_ok w _ s hall] at h
      simp only [read_run] at h
      cases hopen : w.fopen (profile_path_of id) with
      | none =>
        simp only [hopen, Result.died.injEq, log_log] at h
        refine ⟨_, h.2.symm, ?_⟩
        intro e he
        simp only [List.mem_append, List.mem_map, List.mem_singleton] at he
        rcases he with ⟨p, _, rfl⟩ | rfl <;> rfl
      | some fp =>
        simp only [hopen] at h
        by_cases h1 : (fread_model fp (MAX_BPF_SIZE + 1)).2.1 = true
        · simp only [h1, if_true, Result.died.injEq, log_log] at h
          refine ⟨_, h.2.symm, ?_⟩
          intro e he
          simp only [List.mem_append, List.mem_map, List.mem_cons, List.mem_singleton] at he
          rcases he with ⟨p, _, rfl⟩ | rfl | rfl | he
          · rfl
          · rfl
          · rfl
          · simp at he
        · by_cases h2 : (fread_model fp (MAX_BPF_SIZE + 1)).2.2 = false
          · have h1' : (fread_model fp (MAX_BPF_SIZE + 1)).2.1 = false := by simpa using h1
            simp only [h1', h2, Bool.false_eq_true, if_true, if_false, Result.died.injEq,
              log_log] at h
            refine ⟨_, h.2.symm, ?_⟩
            intro e he
            simp only [List.mem_append, List.mem_map, List.mem_cons, List.mem_singleton] at he
            rcases he with ⟨p, _, rfl⟩ | rfl | rfl | he
            · rfl
            · rfl
            · rfl
            · simp at he
          · simp [h1, h2] at h
    · obtain ⟨pre, bad, post, hsplit, hpre, hbad⟩ := exists_first_bad (strict_perms w) _ hall
      rw [hsplit, check_all_bad w pre bad post s hpre hbad] at h
      simp only [Result.died.injEq] at h
      refine ⟨_, h.2.symm, ?_⟩
      intro e he
      simp only [List.mem_map] at he
      obtain ⟨p, _, rfl⟩ := he
      rfl
  · simp only [hfit, if_false, Result.died.injEq] at h
    exact ⟨[], by rw [log_nil]; exact h.2.symm, by simp⟩


theorem apply_run (w : World) (id : CStr) (s : Proc) :
    sc_apply_seccomp_bpf w id s =
      match sc_apply_seccomp_bpf_load w id s with
      | .ret x s1 =>
        (match sc_apply_seccomp_bpf_raise w s1 with
          | .ret _ s2 => sc_apply_seccomp_bpf_install w x.1 x.2 s2
          | .died f s2 => .died f s2)
      | .died f s1 => .died f s1 := by
  unfold sc_apply_seccomp_bpf
  simp only [bind_run]
  cases sc_apply_seccomp_bpf_load w id s with
  | died f s1 => rfl
  | ret x s1 =>
    simp only []
    cases sc_apply_seccomp_bpf_raise w s1 <;> rfl

theorem profile_path_of_length (id : CStr) : (profile_path_of id).length = id.length + 32 := by
  simp [profile_path_of, filter_profile_dir]

/-- C2: when some ancestor of the composed profile path is missing, not owned by 0:0 or
writable by others, `sc_apply_seccomp_bpf` dies, with a formatting error or with the error
naming a failing ancestor; up to that point the process has only made `stat` calls (no
`fopen`, no `seteuid`, no `prctl`) and its credentials are unchanged. -/
theorem sc_apply_seccomp_bpf_untrusted_aborts (w : World) (id : CStr) (c : Creds)
    (hbad : ∃ p ∈ ancestors (profile_path_of id), strict_perms w p = false) :
    ∃ f s1, sc_apply_seccomp_bpf w id (Proc.start c) = .died f s1 ∧
      s1.creds = c ∧ (∀ e ∈ s1.trace, ∃ p, e = Event.stat p) ∧
      (f = .cannot_format ∨
        ∃ p ∈ ancestors (profile_path_of id), strict_perms w p = false ∧ f = perm_failure w p) := by
  have hall : ¬ ∀ p ∈ ancestors (profile_path_of id), strict_perms w p = true := by
    intro hall
    obtain ⟨p, hp, hpb⟩ := hbad
    rw [hall p hp] at hpb
    cases hpb
  obtain ⟨pre, bad, post, hsplit, hpre, hbad1⟩ := exists_first_bad (strict_perms w) _ hall
  rw [apply_run, load_run]
  by_cases hfit : (profile_path_of id).length < PROFILE_PATH_SIZE
  · simp only [hfit, if_true]
    rw [hsplit, check_all_bad w pre bad post _ hpre hbad1]
    refine ⟨_, _, rfl, rfl, ?_, Or.inr ⟨bad, by simp, hbad1, rfl⟩⟩
    intro e he
    simp only [Proc.log, Proc.start, List.nil_append, List.mem_map] at he
    obtain ⟨p, _, rfl⟩ := he
    exact ⟨p, rfl⟩
  · simp only [hfit, if_false]
    exact ⟨_, _, rfl, rfl, by simp [Proc.start], Or.inl rfl⟩

/-- C2 at the profile `snap.foo.bar` when `/var/lib` belongs to uid 1000. -/
theorem sc_apply_seccomp_bpf_untrusted_aborts_witness :
    ∃ f s1, sc_apply_seccomp_bpf world_foreign_dir "snap.foo.bar".toList
        (Proc.start ⟨1000, 1000, 0⟩) = .died f s1 ∧
      s1.creds = ⟨1000, 1000, 0⟩ ∧ (∀ e ∈ s1.trace, ∃ p, e = Event.stat p) ∧
      (f = .cannot_format ∨
        ∃ p ∈ ancestors (profile_path_of "snap.foo.bar".toList),
          strict_perms world_foreign_dir p = false ∧ f = perm_failure world_foreign_dir p) :=
  sc_apply_seccomp_bpf_untrusted_aborts world_foreign_dir "snap.foo.bar".toList ⟨1000, 1000, 0⟩
    ⟨"/var/lib".toList, by decide, by decide⟩

/-- C3: for a profile file that opens, reads without error and whose path fits and passes the
ancestry validation, the load step returns exactly when the file has at most `MAX_BPF_SIZE`
(32768) bytes, and then hands on exactly the bytes of the file and their number; a longer
file dies as oversize. In particular 32768 bytes are accepted and 32769 are not. -/
theorem sc_apply_seccomp_bpf_load_size_bound (w : World) (id : CStr) (s : Proc) (fp : FileData)
    (hfit : (profile_path_of id).length < PROFILE_PATH_SIZE)
    (htrust : ∀ p ∈ ancestors (profile_path_of id), strict_perms w p = true)
    (hopen : w.fopen (profile_path_of id) = some fp) (hread : fp.fail_at = none) :
    MAX_BPF_SIZE = 32768 ∧
    ((sc_apply_seccomp_bpf_load w id s).returned = true ↔ fp.content.length ≤ MAX_BPF_SIZE) ∧
    (fp.content.length ≤ MAX_BPF_SIZE →
      ∃ s1, sc_apply_seccomp_bpf_load w id s = .ret (fp.content, fp.content.length) s1) ∧
    (MAX_BPF_SIZE < fp.content.length →
      ∃ s1, sc_apply_seccomp_bpf_load w id s = .died (.exceeds (profile_path_of id)) s1) ∧
    (fp.content.length = 32768 → (sc_apply_seccomp_bpf_load w id s).returned = true) ∧
    (fp.content.length = 32769 →
      ∃ s1, sc_apply_seccomp_bpf_load w id s = .died (.exceeds (profile_path_of id)) s1) := by
  have hrun := load_readable w id s fp hfit htrust hopen hread
  have hmax : MAX_BPF_SIZE = 32768 := rfl
  have hle : fp.content.length ≤ MAX_BPF_SIZE →
      ∃ s1, sc_apply_seccomp_bpf_load w id s = .ret (fp.content, fp.content.length) s1 := by
    intro h
    rw [hrun]
    simp only [h, if_true]
    exact ⟨_, rfl⟩
  have hgt : MAX_BPF_SIZE < fp.content.length →
      ∃ s1, sc_apply_seccomp_bpf_load w id s = .died (.exceeds (profile_path_of id)) s1 := by
    intro h
    have h1 : ¬ fp.content.length ≤ MAX_BPF_SIZE := by omega
    rw [hrun]
    simp only [h1, if_false]
    exact ⟨_, rfl⟩
  have hiff : (sc_apply_seccomp_bpf_load w id s).returned = true ↔
      fp.content.length ≤ MAX_BPF_SIZE := by
    constructor
    · intro hret
      by_contra hc
      obtain ⟨s1, hs1⟩ := hgt (by omega)
      rw [hs1] at hret
      cases hret
    · intro h
      obtain ⟨s1, hs1⟩ := hle h
      rw [hs1]
      rfl
  refine ⟨hmax, hiff, hle, hgt, ?_, ?_⟩
  · intro h
    exact hiff.2 (by omega)
  · intro h
    exact hgt (by omega)

/-- C3 at a profile of exactly 32768 bytes: the load step returns. -/
theorem sc_apply_seccomp_bpf_load_size_bound_witness :
    (sc_apply_seccomp_bpf_load world_full "snap.foo.bar".toList
      (Proc.start ⟨1000, 1000, 0⟩)).returned = true :=
  (sc_apply_seccomp_bpf_load_size_bound world_full "snap.foo.bar".toList
    (Proc.start ⟨1000, 1000, 0⟩) { content := List.replicate 32768 0, fail_at := none }
    (by decide) (by decide) rfl rfl).2.2.2.2.1 (List.length_replicate 32768 0)

/-- C4: the composed path is `filter_profile_dir`, `/`, the identifier and `.bpf`; it begins
with `/` and has 32 characters more than the identifier. When it does not fit the 512-byte
buffer with its terminator, `sc_apply_seccomp_bpf` dies with the formatting error before
any call is made; when it fits, the composed path itself, whole, is what is validated and
then opened. -/
theorem sc_apply_seccomp_bpf_path_capacity (w : World) (id : CStr) (s : Proc) :
    profile_path_of id = "/var/lib/snapd/seccomp/bpf/".toList ++ "/".toList ++ id ++ ".bpf".toList ∧
    (profile_path_of id).head? = some '/' ∧
    (profile_path_of id).length = id.length + 32 ∧
    (¬ (profile_path_of id).length + 1 ≤ 512 →
      sc_apply_seccomp_bpf w id s = .died .cannot_format s) ∧
    ((profile_path_of id).length + 1 ≤ 512 →
      sc_apply_seccomp_bpf_load w id s =
        (validate_bpfpath_is_safe w (some (profile_path_of id)) >>= fun _ =>
          sc_apply_seccomp_bpf_read w (profile_path_of id)) s) ∧
    ((profile_path_of id).length + 1 ≤ 512 →
      (∀ p ∈ ancestors (profile_path_of id), strict_perms w p = true) →
      ∃ es, (sc_apply_seccomp_bpf_load w id s).proc =
        s.log ((ancestors (profile_path_of id)).map Event.stat ++
          Event.fopen (profile_path_of id) :: es)) := by
  refine ⟨rfl, rfl, profile_path_of_length id, ?_, ?_, ?_⟩
  · intro h
    have hfit : ¬ (profile_path_of id).length < PROFILE_PATH_SIZE := by
      unfold PROFILE_PATH_SIZE; omega
    rw [apply_run, load_run]
    simp only [hfit, if_false]
  · intro h
    have hfit : (profile_path_of id).length < PROFILE_PATH_SIZE := by
      unfold PROFILE_PATH_SIZE; omega
    unfold sc_apply_seccomp_bpf_load sc_must_snprintf
    simp only [hfit, if_true, bind_run, pure_run]
  · intro h hall
    have hfit : (profile_path_of id).length < PROFILE_PATH_SIZE := by
      unfold PROFILE_PATH_SIZE; omega
    rw [load_run]
    simp only [hfit, if_true, check_all_ok w _ s hall, read_run, log_log]
    cases w.fopen (profile_path_of id) with
    | none => exact ⟨[], rfl⟩
    | some fp =>
      simp only []
      split
      · exact ⟨_, rfl⟩
      · split
        · exact ⟨_, rfl⟩
        · exact ⟨_, rfl⟩

/-- C4 at an identifier of 480 characters, whose path has 512: the call dies before any call is
made. -/
theorem sc_apply_seccomp_bpf_path_capacity_witness :
    sc_apply_seccomp_bpf world_trusted (List.replicate 480 'a') (Proc.start ⟨1000, 1000, 0⟩) =
      .died .cannot_format (Proc.start ⟨1000, 1000, 0⟩) :=
  (sc_apply_seccomp_bpf_path_capacity world_trusted (List.replicate 480 'a')
    (Proc.start ⟨1000, 1000, 0⟩)).2.2.2.1
    (by rw [profile_path_of_length, List.length_replicate]; omega)


theorem raise_ret (w : World) (s s2 : Proc) (u : Unit)
    (h : sc_apply_seccomp_bpf_raise w s = .ret u s2) :
    w.getresuid_ok = true ∧
    ((s.creds.euid ≠ 0 ∧ s.creds.suid = 0 ∧ ∃ c1, w.seteuid s.creds 0 = some c1 ∧ c1.euid = 0 ∧
        s2 = { creds := c1, trace := s.trace ++ [.getresuid, .seteuid 0 0, .geteuid 0] }) ∨
      (¬ (s.creds.euid ≠ 0 ∧ s.creds.suid = 0) ∧ s2 = s.log [.getresuid])) := by
  rw [raise_run] at h
  by_cases h0 : w.getresuid_ok = false
  · simp [h0] at h
  · have h0' : w.getresuid_ok = true := by simpa using h0
    simp only [h0', Bool.true_eq_false, if_false] at h
    refine ⟨h0', ?_⟩
    by_cases h1 : s.creds.euid ≠ 0 ∧ s.creds.suid = 0
    · left
      simp only [h1, and_self, if_true, ne_eq, not_false_eq_true] at h
      refine ⟨h1.1, h1.2, ?_⟩
      cases hset : w.seteuid s.creds 0 with
      | none => simp [hset] at h
      | some c1 =>
        simp only [hset] at h
        by_cases h2 : c1.euid = 0
        · simp only [h2, not_true_eq_false, if_false, Result.ret.injEq, true_and] at h
          exact ⟨c1, rfl, h2, h.symm⟩
        · simp [h2] at h
    · right
      simp only [h1, if_false, Result.ret.injEq, true_and] at h
      exact ⟨h1, h.symm⟩

theorem raise_trace (w : World) (s : Proc) :
    ∃ es, (sc_apply_seccomp_bpf_raise w s).proc.trace = s.trace ++ es ∧
      ∀ e ∈ es, e.is_prctl = false := by
  rw [raise_run]
  by_cases h0 : w.getresuid_ok = false
  · simp only [h0, if_true]
    exact ⟨[.getresuid], rfl, by simp [Event.is_prctl]⟩
  · simp only [h0, if_false]
    by_cases h1 : s.creds.euid ≠ 0 ∧ s.creds.suid = 0
    · simp only [h1, and_self, if_true, ne_eq, not_false_eq_true]
      cases w.seteuid s.creds 0 with
      | none => exact ⟨[.getresuid, .seteuid 0 (-1)], rfl, by simp [Event.is_prctl]⟩
      | some c1 =>
        simp only []
        by_cases h2 : c1.euid = 0
        · simp only [h2, not_true_eq_false, if_false]
          exact ⟨[.getresuid, .seteuid 0 0, .geteuid 0], rfl, by simp [Event.is_prctl]⟩
        · simp only [h2, not_false_eq_true, if_true]
          exact ⟨[.getresuid, .seteuid 0 0, .geteuid c1.euid], rfl, by simp [Event.is_prctl]⟩
    · simp only [h1, if_false]
      exact ⟨[.getresuid], rfl, by simp [Event.is_prctl]⟩

theorem install_trace (w : World) (bpf : List Nat) (n : Nat) (s : Proc) :
    ∃ es, (sc_apply_seccomp_bpf_install w bpf n s).proc.trace =
        s.trace ++ Event.prctl (mk_sock_fprog bpf n) s.creds.euid
          (w.prctl s.creds (mk_sock_fprog bpf n)) :: es ∧
      ∀ e ∈ es, e.is_prctl = false := by
  rw [install_run]
  by_cases h0 : w.prctl s.creds (mk_sock_fprog bpf n) ≠ 0
  · simp only [h0, ne_eq, not_false_eq_true, if_true]
    exact ⟨[], rfl, by simp⟩
  · have h0' : w.prctl s.creds (mk_sock_fprog bpf n) = 0 := by simpa using h0
    simp only [h0', ne_eq, not_true_eq_false, if_false]
    by_cases h1 : s.creds.euid = 0
    · simp only [h1, not_true_eq_false, if_false]
      cases w.seteuid s.creds s.creds.ruid with
      | none => exact ⟨_, rfl, by simp [Event.is_prctl]⟩
      | some c2 =>
        simp only []
        by_cases h2 : s.creds.ruid = 0
        · simp only [h2, if_true]
          exact ⟨_, rfl, by simp [Event.is_prctl]⟩
        · simp only [h2, if_false]
          by_cases h3 : c2.euid = 0
          · simp only [h3, if_true]
            exact ⟨_, rfl, by simp [Event.is_prctl]⟩
          · simp only [h3, if_false]
            exact ⟨_, rfl, by simp [Event.is_prctl]⟩
    · simp only [h1, not_false_eq_true, if_true]
      exact ⟨_, rfl, by simp [Event.is_prctl]⟩

theorem install_ret (w : World) (bpf : List Nat) (n : Nat) (s s3 : Proc) (v : Int)
    (h : sc_apply_seccomp_bpf_install w bpf n s = .ret v s3) :
    v = 0 ∧ w.prctl s.creds (mk_sock_fprog bpf n) = 0 ∧
    ((s.creds.euid ≠ 0 ∧
        s3 = s.log [.prctl (mk_sock_fprog bpf n) s.creds.euid 0, .geteuid s.creds.euid]) ∨
      (s.creds.euid = 0 ∧ ∃ c2, w.seteuid s.creds s.creds.ruid = some c2 ∧
        ((s.creds.ruid = 0 ∧ s3 = { creds := c2, trace := s.trace ++
            [.prctl (mk_sock_fprog bpf n) 0 0, .geteuid 0, .getuid s.creds.ruid,
              .seteuid s.creds.ruid 0] }) ∨
          (s.creds.ruid ≠ 0 ∧ c2.euid ≠ 0 ∧ s3 = { creds := c2, trace := s.trace ++
            [.prctl (mk_sock_fprog bpf n) 0 0, .geteuid 0, .getuid s.creds.ruid,
              .seteuid s.creds.ruid 0, .geteuid c2.euid] })))) := by
  rw [install_run] at h
  by_cases h0 : w.prctl s.creds (mk_sock_fprog bpf n) ≠ 0
  · simp [h0] at h
  · have h0' : w.prctl s.creds (mk_sock_fprog bpf n) = 0 := by simpa using h0
    simp only [h0', ne_eq, not_true_eq_false, if_false] at h
    by_cases h1 : s.creds.euid = 0
    · simp only [h1, not_true_eq_false, if_false] at h
      cases hset : w.seteuid s.creds s.creds.ruid with
      | none => simp [hset] at h
      | some c2 =>
        simp only [hset] at h
        by_cases h2 : s.creds.ruid = 0
        · simp only [h2, if_true, Result.ret.injEq] at h
          refine ⟨h.1.symm, h0', Or.inr ⟨h1, c2, rfl, Or.inl ⟨h2, ?_⟩⟩⟩
          rw [h2]
          exact h.2.symm
        · simp only [h2, if_false] at h
          by_cases h3 : c2.euid = 0
          · simp [h3] at h
          · simp only [h3, if_false, Result.ret.injEq] at h
            exact ⟨h.1.symm, h0', Or.inr ⟨h1, c2, rfl, Or.inr ⟨h2, h3, h.2.symm⟩⟩⟩
    · simp only [h1, not_false_eq_true, if_true, Result.ret.injEq] at h
      exact ⟨h.1.symm, h0', Or.inl ⟨h1, h.2.symm⟩⟩

theorem linux_seteuid_sound (c : Creds) (uid : Nat) (c1 : Creds)
    (h : linux_seteuid c uid = some c1) : c1 = { c with euid := uid } := by
  unfold linux_seteuid at h
  split at h
  · exact (Option.some.inj h).symm
  · cases h


theorem apply_ret_stages (w : World) (id : CStr) (s s3 : Proc) (v : Int)
    (h : sc_apply_seccomp_bpf w id s = .ret v s3) :
    ∃ x s1 s2, sc_apply_seccomp_bpf_load w id s = .ret x s1 ∧
      sc_apply_seccomp_bpf_raise w s1 = .ret () s2 ∧
      sc_apply_seccomp_bpf_install w x.1 x.2 s2 = .ret v s3 := by
  rw [apply_run] at h
  cases hload : sc_apply_seccomp_bpf_load w id s with
  | died f s1 => simp [hload] at h
  | ret x s1 =>
    simp only [hload] at h
    cases hraise : sc_apply_seccomp_bpf_raise w s1 with
    | died f s2 => simp [hraise] at h
    | ret u s2 =>
      simp only [hraise] at h
      exact ⟨x, s1, s2, rfl, hraise, h⟩

theorem not_mem_of_no_prctl (l : List Event) (hl : ∀ e ∈ l, e.is_prctl = false)
    (prog : SockFprog) (e : Nat) (r : Int) : Event.prctl prog e r ∉ l := by
  intro hmem
  have := hl _ hmem
  simp [Event.is_prctl] at this

theorem load_trace_no_prctl (id : CStr) (n : Nat) :
    ∀ e ∈ (ancestors (profile_path_of id)).map Event.stat ++
        [Event.fopen (profile_path_of id), Event.fread n, Event.fclose],
      e.is_prctl = false := by
  intro e he
  simp only [List.mem_append, List.mem_map, List.mem_cons, List.mem_singleton] at he
  rcases he with ⟨p, _, rfl⟩ | rfl | rfl | rfl | he
  · rfl
  · rfl
  · rfl
  · rfl
  · simp at he

theorem prctl_mem (w : World) (id : CStr) (c : Creds) (prog : SockFprog) (e : Nat) (r : Int)
    (h : Event.prctl prog e r ∈ (sc_apply_seccomp_bpf w id (Proc.start c)).proc.trace) :
    ∃ fp, w.fopen (profile_path_of id) = some fp ∧ fp.content.length ≤ MAX_BPF_SIZE ∧
      prog = mk_sock_fprog fp.content fp.content.length := by
  rw [apply_run] at h
  cases hload : sc_apply_seccomp_bpf_load w id (Proc.start c) with
  | died f s1 =>
    simp only [hload] at h
    replace h : Event.prctl prog e r ∈ s1.trace := h
    obtain ⟨es, hs1, hes⟩ := load_died w id _ s1 f hload
    rw [hs1] at h
    simp only [Proc.log, Proc.start, List.nil_append] at h
    exact absurd h (not_mem_of_no_prctl es hes prog e r)
  | ret x s1 =>
    simp only [hload] at h
    obtain ⟨_, _, fp, hopen, _, hlen, hx, hs1⟩ := load_ret w id _ s1 x hload
    have hs1t : ∀ e ∈ s1.trace, e.is_prctl = false := by
      rw [hs1]
      simp only [Proc.log, Proc.start, List.nil_append]
      exact load_trace_no_prctl id _
    obtain ⟨es, hraise_t, hes⟩ := raise_trace w s1
    have hs2t : ∀ e ∈ (sc_apply_seccomp_bpf_raise w s1).proc.trace, e.is_prctl = false := by
      rw [hraise_t]
      intro e he
      rcases List.mem_append.mp he with he | he
      · exact hs1t e he
      · exact hes e he
    cases hraise : sc_apply_seccomp_bpf_raise w s1 with
    | died f s2 =>
      rw [hraise] at hs2t
      simp only [hraise] at h
      exact absurd h (not_mem_of_no_prctl _ hs2t prog e r)
    | ret u s2 =>
      rw [hraise] at hs2t
      simp only [hraise] at h
      replace hs2t : ∀ e ∈ s2.trace, e.is_prctl = false := hs2t
      obtain ⟨es3, htr, hes3⟩ := install_trace w x.1 x.2 s2
      rw [htr] at h
      rcases List.mem_append.mp h with h | h
      · exact absurd h (not_mem_of_no_prctl _ hs2t prog e r)
      · rcases List.mem_cons.mp h with h | h
        · injection h with hp _ _
          refine ⟨fp, hopen, hlen, ?_⟩
          rw [hp, hx]
        · exact absurd h (not_mem_of_no_prctl _ hes3 prog e r)

theorem mk_sock_fprog_len (bpf : List Nat) (h : bpf.length ≤ MAX_BPF_SIZE) :
    (mk_sock_fprog bpf bpf.length).len = bpf.length / 8 := by
  have h1 : bpf.length ≤ 32768 := h
  simp only [mk_sock_fprog, sizeof_sock_filter]
  norm_num
  omega

/-- C9: every program that `sc_apply_seccomp_bpf` passes to `prctl` is the bytes of the profile
file, at most 32768 of them; its instruction count is the number of bytes divided by 8 (the
size of one `struct sock_filter`), rounded down, which is at most 4096 and so is not
truncated by the 16-bit field; the count covers all bytes exactly when their number is a
multiple of 8, and otherwise leaves the last `n mod 8` bytes out. -/
theorem sc_apply_seccomp_bpf_instruction_count (w : World) (id : CStr) (c : Creds)
    (prog : SockFprog) (e : Nat) (r : Int)
    (h : Event.prctl prog e r ∈ (sc_apply_seccomp_bpf w id (Proc.start c)).proc.trace) :
    sizeof_sock_filter = 8 ∧
    (∃ fp, w.fopen (profile_path_of id) = some fp ∧ prog.filter = fp.content) ∧
    prog.filter.length ≤ 32768 ∧
    prog.len = prog.filter.length / 8 ∧
    prog.len ≤ 4096 ∧ prog.len < 2 ^ 16 ∧
    (prog.len * 8 = prog.filter.length ↔ prog.filter.length % 8 = 0) ∧
    prog.len * 8 + prog.filter.length % 8 = prog.filter.length := by
  obtain ⟨fp, hopen, hlen, hprog⟩ := prctl_mem w id c prog e r h
  have hl := mk_sock_fprog_len fp.content hlen
  have hf : prog.filter = fp.content := by rw [hprog]; rfl
  have h1 : fp.content.length ≤ 32768 := hlen
  rw [← hprog] at hl
  rw [hf, hl]
  refine ⟨rfl, ⟨fp, hopen, rfl⟩, h1, rfl, by omega, ?_, by omega, by omega⟩
  norm_num
  omega

/-- C9 at a profile of 16 bytes: the program passed to `prctl` has 2 instructions. -/
theorem sc_apply_seccomp_bpf_instruction_count_witness :
    (2 : Nat) = (List.replicate 16 0).length / 8 :=
  (sc_apply_seccomp_bpf_instruction_count world_trusted "snap.foo.bar".toList ⟨1000, 1000, 0⟩
    { len := 2, filter := List.replicate 16 0 } 0 0 (by decide)).2.2.2.1


/-- C5 (the claim fails here): with real uid 1000 and effective and saved uid 1001, in an
environment where every path is trusted and the kernel accepts the filter, the call returns
and the effective uid is still 1001, not the real uid 1000. -/
theorem sc_apply_seccomp_bpf_effective_ne_real :
    (sc_apply_seccomp_bpf world_trusted "snap.foo.bar".toList
        (Proc.start ⟨1000, 1001, 1001⟩)).returned = true ∧
    (sc_apply_seccomp_bpf world_trusted "snap.foo.bar".toList
        (Proc.start ⟨1000, 1001, 1001⟩)).proc.creds.euid = 1001 ∧
    (sc_apply_seccomp_bpf world_trusted "snap.foo.bar".toList
        (Proc.start ⟨1000, 1001, 1001⟩)).proc.creds.ruid = 1000 := by
  decide

/-- C5 (amended): with a `seteuid` that does what it reports, a call that returns leaves the real
and saved uid as they were; the effective uid at return is the real uid when the effective
uid was 0 or the saved uid was 0 at entry, and is the effective uid of entry otherwise. -/
theorem sc_apply_seccomp_bpf_effective_at_return (w : World) (id : CStr) (c : Creds)
    (v : Int) (s3 : Proc) (hsound : SeteuidSound w)
    (hret : sc_apply_seccomp_bpf w id (Proc.start c) = .ret v s3) :
    s3.creds.ruid = c.ruid ∧ s3.creds.suid = c.suid ∧
    (c.euid = 0 ∨ c.suid = 0 → s3.creds.euid = c.ruid) ∧
    (c.euid ≠ 0 → c.suid ≠ 0 → s3.creds.euid = c.euid) := by
  obtain ⟨x, s1, s2, hload, hraise, hinst⟩ := apply_ret_stages w id _ s3 v hret
  obtain ⟨_, _, fp, _, _, _, _, hs1⟩ := load_ret w id _ s1 x hload
  have hc1 : s1.creds = c := by rw [hs1]; rfl
  obtain ⟨_, hr⟩ := raise_ret w s1 s2 () hraise
  obtain ⟨_, _, hi⟩ := install_ret w x.1 x.2 s2 s3 v hinst
  rw [hc1] at hr
  rcases hr with ⟨he, hs, c1, hset, hc1e, hs2⟩ | ⟨hno, hs2⟩
  · have hc1eq := hsound _ _ _ hset
    have hs2c : s2.creds = { c with euid := 0 } := by rw [hs2]; exact hc1eq
    rcases hi with ⟨hne, _⟩ | ⟨_, c2, hset2, hcase⟩
    · rw [hs2c] at hne
      exact absurd rfl hne
    · have hc2 := hsound _ _ _ hset2
      have hs3c : s3.creds = c2 := by
        rcases hcase with ⟨_, h3⟩ | ⟨_, _, h3⟩ <;> rw [h3]
      rw [hs3c, hc2, hs2c]
      refine ⟨rfl, rfl, fun _ => rfl, fun _ h => absurd hs h⟩
  · have hs2c : s2.creds = c := by rw [hs2]; exact hc1
    rcases hi with ⟨hne, h3⟩ | ⟨he0, c2, hset2, hcase⟩
    · have hs3c : s3.creds = c := by rw [h3]; exact hs2c
      rw [hs2c] at hne
      rw [hs3c]
      refine ⟨rfl, rfl, ?_, fun _ _ => rfl⟩
      intro h
      rcases h with h | h
      · exact absurd h hne
      · exact absurd ⟨hne, h⟩ hno
    · have hc2 := hsound _ _ _ hset2
      have hs3c : s3.creds = c2 := by
        rcases hcase with ⟨_, h3⟩ | ⟨_, _, h3⟩ <;> rw [h3]
      rw [hs2c] at he0
      rw [hs3c, hc2, hs2c]
      refine ⟨rfl, rfl, fun _ => rfl, fun h _ => absurd he0 h⟩

/-- C5 (amended) from the identity (1000, 1000, 0): the effective uid at return is 1000. -/
theorem sc_apply_seccomp_bpf_effective_at_return_witness :
    (sc_apply_seccomp_bpf world_trusted "snap.foo.bar".toList
        (Proc.start ⟨1000, 1000, 0⟩)).proc.creds.euid = 1000 :=
  (sc_apply_seccomp_bpf_effective_at_return world_trusted "snap.foo.bar".toList
    ⟨1000, 1000, 0⟩ 0
    (sc_apply_seccomp_bpf world_trusted "snap.foo.bar".toList (Proc.start ⟨1000, 1000, 0⟩)).proc
    linux_seteuid_sound (by decide)).2.2.1 (Or.inr rfl)

/-- C6: from the identity (real `r`, effective `r`, saved 0), with a path that fits and is
trusted throughout, a profile that is read within the bound, and the calls of the run
answered as follows: `getresuid` succeeds, the two `seteuid` calls the run makes follow the
Linux rule, and the one `prctl` call the run makes (at effective uid 0, with the program
loaded) returns 0. Then the call returns 0 with the identity (`r`, `r`, 0) again. When `r`
is not 0 the `prctl` call runs with effective uid 0, between `seteuid(0)` and `seteuid(r)`;
when `r` is 0 no `seteuid` precedes the `prctl` call and the effective uid is 0
throughout. -/
theorem sc_apply_seccomp_bpf_round_trip (w : World) (id : CStr) (r : Nat) (fp : FileData)
    (hfit : (profile_path_of id).length < PROFILE_PATH_SIZE)
    (htrust : ∀ p ∈ ancestors (profile_path_of id), strict_perms w p = true)
    (hopen : w.fopen (profile_path_of id) = some fp) (hread : fp.fail_at = none)
    (hsize : fp.content.length ≤ MAX_BPF_SIZE) (hids : w.getresuid_ok = true)
    (hraise : w.seteuid ⟨r, r, 0⟩ 0 = linux_seteuid ⟨r, r, 0⟩ 0)
    (hdrop : w.seteuid ⟨r, 0, 0⟩ r = linux_seteuid ⟨r, 0, 0⟩ r)
    (hinstall : w.prctl ⟨r, 0, 0⟩ (mk_sock_fprog fp.content fp.content.length) = 0) :
    sc_apply_seccomp_bpf w id (Proc.start ⟨r, r, 0⟩) =
      .ret 0 { creds := ⟨r, r, 0⟩,
               trace := (ancestors (profile_path_of id)).map Event.stat ++
                 [.fopen (profile_path_of id), .fread fp.content.length, .fclose, .getresuid] ++
                 (if r = 0 then
                    [.prctl (mk_sock_fprog fp.content fp.content.length) 0 0,
                      .geteuid 0, .getuid 0, .seteuid 0 0]
                  else
                    [.seteuid 0 0, .geteuid 0,
                      .prctl (mk_sock_fprog fp.content fp.content.length) 0 0,
                      .geteuid 0, .getuid r, .seteuid r 0, .geteuid r]) } := by
  rw [apply_run, load_readable w id _ fp hfit htrust hopen hread]
  simp only [hsize, if_true, raise_run, hids, Bool.true_eq_false, if_false]
  by_cases hr : r = 0
  · subst hr
    simp [Proc.log, Proc.start, install_run, hinstall, hdrop, linux_seteuid]
  · simp [Proc.log, Proc.start, install_run, hinstall, hraise, hdrop, linux_seteuid, hr]

/-- C6 at `r = 1000`, with a kernel that accepts the filter only at effective uid 0: the
identity at return is (1000, 1000, 0). -/
theorem sc_apply_seccomp_bpf_round_trip_witness :
    (sc_apply_seccomp_bpf world_root_only "snap.foo.bar".toList
        (Proc.start ⟨1000, 1000, 0⟩)).proc.creds = ⟨1000, 1000, 0⟩ :=
  congrArg (fun res => res.proc.creds)
    (sc_apply_seccomp_bpf_round_trip world_root_only "snap.foo.bar".toList 1000
      { content := List.replicate 16 0, fail_at := none }
      (by decide) (by decide) rfl rfl (by decide) rfl rfl rfl rfl)

/-- C7 (the claim fails here): from the identity (1000, 1000, 0), with every path trusted and a
kernel that rejects the filter, the run dies; the `prctl` call, made with effective uid 0
and returning -1, is the last call of the process, so no restore is attempted, and the
process ends with effective uid 0 and real uid 1000. -/
theorem sc_apply_seccomp_bpf_no_restore_after_failed_install :
    (sc_apply_seccomp_bpf world_rejecting "snap.foo.bar".toList
        (Proc.start ⟨1000, 1000, 0⟩)).returned = false ∧
    (sc_apply_seccomp_bpf world_rejecting "snap.foo.bar".toList
        (Proc.start ⟨1000, 1000, 0⟩)).proc.trace.getLast? =
      some (.prctl { len := 2, filter := List.replicate 16 0 } 0 (-1)) ∧
    (sc_apply_seccomp_bpf world_rejecting "snap.foo.bar".toList
        (Proc.start ⟨1000, 1000, 0⟩)).proc.creds = ⟨1000, 0, 0⟩ := by
  decide

/-- C7 (amended): what lines 153-172 do from any state. When `prctl` reports failure the process
dies at once, `prctl` being its last call. When `prctl` reports success and the effective
uid is not 0, the function returns 0 without calling `seteuid`. When `prctl` reports
success and the effective uid is 0, `seteuid(getuid())` is called: the process dies when
that call fails, and when it succeeds but the real uid is not 0 and the effective uid is
still 0; otherwise the function returns 0. -/
theorem sc_apply_seccomp_bpf_install_then_drop (w : World) (bpf : List Nat) (n : Nat)
    (s : Proc) :
    (w.prctl s.creds (mk_sock_fprog bpf n) ≠ 0 →
      sc_apply_seccomp_bpf_install w bpf n s =
        .died .prctl_failed (s.log [.prctl (mk_sock_fprog bpf n) s.creds.euid
          (w.prctl s.creds (mk_sock_fprog bpf n))])) ∧
    (w.prctl s.creds (mk_sock_fprog bpf n) = 0 → s.creds.euid ≠ 0 →
      sc_apply_seccomp_bpf_install w bpf n s =
        .ret 0 (s.log [.prctl (mk_sock_fprog bpf n) s.creds.euid 0, .geteuid s.creds.euid])) ∧
    (w.prctl s.creds (mk_sock_fprog bpf n) = 0 → s.creds.euid = 0 →
      w.seteuid s.creds s.creds.ruid = none →
      sc_apply_seccomp_bpf_install w bpf n s =
        .died .seteuid_failed (s.log [.prctl (mk_sock_fprog bpf n) 0 0, .geteuid 0,
          .getuid s.creds.ruid, .seteuid s.creds.ruid (-1)])) ∧
    (∀ c2, w.prctl s.creds (mk_sock_fprog bpf n) = 0 → s.creds.euid = 0 →
      w.seteuid s.creds s.creds.ruid = some c2 → s.creds.ruid ≠ 0 → c2.euid = 0 →
      sc_apply_seccomp_bpf_install w bpf n s =
        .died .dropping_privs_did_not_work
          { creds := c2, trace := s.trace ++ [.prctl (mk_sock_fprog bpf n) 0 0, .geteuid 0,
            .getuid s.creds.ruid, .seteuid s.creds.ruid 0, .geteuid 0] }) ∧
    (∀ c2, w.prctl s.creds (mk_sock_fprog bpf n) = 0 → s.creds.euid = 0 →
      w.seteuid s.creds s.creds.ruid = some c2 → s.creds.ruid = 0 ∨ c2.euid ≠ 0 →
      ∃ es, sc_apply_seccomp_bpf_install w bpf n s =
        .ret 0 { creds := c2, trace := s.trace ++ [.prctl (mk_sock_fprog bpf n) 0 0, .geteuid 0,
          .getuid s.creds.ruid, .seteuid s.creds.ruid 0] ++ es }) := by
  refine ⟨?_, ?_, ?_, ?_, ?_⟩
  · intro h0
    rw [install_run]
    simp only [h0, ne_eq, not_false_eq_true, if_true]
  · intro h0 h1
    rw [install_run]
    simp only [h0, h1, ne_eq, not_true_eq_false, not_false_eq_true, if_false, if_true]
  · intro h0 h1 h2
    rw [install_run]
    simp only [h0, h1, h2, ne_eq, not_true_eq_false, if_false]
  · intro c2 h0 h1 h2 h3 h4
    rw [install_run]
    simp only [h0, h1, h2, h3, h4, ne_eq, not_true_eq_false, if_false, if_true]
  · intro c2 h0 h1 h2 h3
    rw [install_run]
    simp only [h0, h1, h2, ne_eq, not_true_eq_false, if_false]
    by_cases hr : s.creds.ruid = 0
    · simp only [hr, if_true]
      exact ⟨[], by simp⟩
    · have h4 : c2.euid ≠ 0 := by
        rcases h3 with h3 | h3
        · exact absurd h3 hr
        · exact h3
      simp only [hr, h4, if_false]
      exact ⟨[.geteuid c2.euid], by simp⟩

/-- C7 (amended) when the kernel rejects the filter: the process dies with `prctl` as its last call. -/
theorem sc_apply_seccomp_bpf_install_then_drop_witness :
    sc_apply_seccomp_bpf_install world_rejecting [] 0 (Proc.start ⟨1000, 0, 0⟩) =
      .died .prctl_failed
        ((Proc.start ⟨1000, 0, 0⟩).log [.prctl (mk_sock_fprog [] 0) 0 (-1)]) :=
  (sc_apply_seccomp_bpf_install_then_drop world_rejecting [] 0 (Proc.start ⟨1000, 0, 0⟩)).1
    (by decide)

/-- C8: a call of `sc_apply_seccomp_bpf` that returns has returned 0 after every step passed: the
path fits the buffer; every ancestor has strict permissions; the file was opened, read
without error and holds at most `MAX_BPF_SIZE` bytes; `getresuid` succeeded; when the
effective uid was not 0 and the saved uid was, `seteuid(0)` succeeded and the effective uid
was 0 afterwards; `prctl` was called exactly once and returned 0; and when the effective
uid was 0 after that, `seteuid` to the real uid succeeded, leaving an effective uid other
than 0 unless the real uid is 0. No `prctl` call of a returning run has failed. -/
theorem sc_apply_seccomp_bpf_returns_only_if (w : World) (id : CStr) (c : Creds) (v : Int)
    (s3 : Proc) (h : sc_apply_seccomp_bpf w id (Proc.start c) = .ret v s3) :
    v = 0 ∧
    (profile_path_of id).length + 1 ≤ 512 ∧
    (∀ p ∈ ancestors (profile_path_of id), strict_perms w p = true) ∧
    (∃ fp, w.fopen (profile_path_of id) = some fp ∧
      (fread_model fp (MAX_BPF_SIZE + 1)).2.1 = false ∧ fp.content.length ≤ MAX_BPF_SIZE ∧
      w.getresuid_ok = true ∧
      ∃ c1, ((c.euid ≠ 0 ∧ c.suid = 0 ∧ w.seteuid c 0 = some c1 ∧ c1.euid = 0) ∨
          (¬ (c.euid ≠ 0 ∧ c.suid = 0) ∧ c1 = c)) ∧
        w.prctl c1 (mk_sock_fprog fp.content fp.content.length) = 0 ∧
        ((c1.euid ≠ 0 ∧ s3.creds = c1) ∨
          (c1.euid = 0 ∧ w.seteuid c1 c1.ruid = some s3.creds ∧
            (c1.ruid = 0 ∨ s3.creds.euid ≠ 0)))) ∧
    s3.trace.countP Event.is_prctl = 1 ∧
    (∀ prog e r, Event.prctl prog e r ∈ s3.trace → r = 0) := by
  obtain ⟨x, s1, s2, hload, hraise, hinst⟩ := apply_ret_stages w id _ s3 v h
  obtain ⟨hfit, htrust, fp, hopen, hferr, hlen, hx, hs1⟩ := load_ret w id _ s1 x hload
  have hc1 : s1.creds = c := by rw [hs1]; rfl
  obtain ⟨hids, hr⟩ := raise_ret w s1 s2 () hraise
  obtain ⟨hv, hprctl, hi⟩ := install_ret w x.1 x.2 s2 s3 v hinst
  have hs1t : ∀ e ∈ s1.trace, e.is_prctl = false := by
    rw [hs1]
    simp only [Proc.log, Proc.start, List.nil_append]
    exact load_trace_no_prctl id _
  have hs2t : ∀ e ∈ s2.trace, e.is_prctl = false := by
    rcases hr with ⟨_, _, c1, _, _, hs2⟩ | ⟨_, hs2⟩
    · rw [hs2]
      intro e he
      simp only [List.mem_append, List.mem_cons, List.mem_singleton] at he
      rcases he with he | rfl | rfl | rfl | he
      · exact hs1t e he
      · rfl
      · rfl
      · rfl
      · simp at he
    · rw [hs2]
      intro e he
      simp only [Proc.log, List.mem_append, List.mem_singleton] at he
      rcases he with he | rfl
      · exact hs1t e he
      · rfl
  have hcount0 : s2.trace.countP Event.is_prctl = 0 := by
    rw [List.countP_eq_zero]
    intro e he
    rw [hs2t e he]
    simp
  obtain ⟨es3, htr, hes3⟩ := install_trace w x.1 x.2 s2
  rw [hinst, hprctl] at htr
  replace htr : s3.trace = s2.trace ++ Event.prctl (mk_sock_fprog x.1 x.2) s2.creds.euid 0 :: es3 :=
    htr
  have hcount3 : es3.countP Event.is_prctl = 0 := by
    rw [List.countP_eq_zero]
    intro e he
    rw [hes3 e he]
    simp
  have hfit1 : (profile_path_of id).length + 1 ≤ 512 := by
    have := hfit
    unfold PROFILE_PATH_SIZE at this
    omega
  refine ⟨hv, hfit1, htrust, ⟨fp, hopen, hferr, hlen, hids, s2.creds, ?_, ?_, ?_⟩, ?_, ?_⟩
  · rw [hc1] at hr
    rcases hr with ⟨he, hs, c1, hset, hc1e, hs2⟩ | ⟨hno, hs2⟩
    · left
      rw [hs2]
      exact ⟨he, hs, hset, hc1e⟩
    · right
      rw [hs2]
      exact ⟨hno, hc1⟩
  · rw [hx] at hprctl
    exact hprctl
  · rcases hi with ⟨hne, h3⟩ | ⟨he0, c2, hset2, hcase⟩
    · left
      rw [h3]
      exact ⟨hne, rfl⟩
    · right
      rcases hcase with ⟨hr0, h3⟩ | ⟨_, hc2, h3⟩
      · rw [h3]
        exact ⟨he0, hset2, Or.inl hr0⟩
      · rw [h3]
        exact ⟨he0, hset2, Or.inr hc2⟩
  · rw [htr, List.countP_append, List.countP_cons, hcount0, hcount3]
    rfl
  · intro prog e r hmem
    rw [htr] at hmem
    rcases List.mem_append.mp hmem with hmem | hmem
    · exact absurd hmem (not_mem_of_no_prctl _ hs2t prog e r)
    · rcases List.mem_cons.mp hmem with hmem | hmem
      · injection hmem
      · exact absurd hmem (not_mem_of_no_prctl _ hes3 prog e r)

/-- C8 at a run that returns: `prctl` was called exactly once. -/
theorem sc_apply_seccomp_bpf_returns_only_if_witness :
    (sc_apply_seccomp_bpf world_trusted "snap.foo.bar".toList
        (Proc.start ⟨1000, 1000, 0⟩)).proc.trace.countP Event.is_prctl = 1 :=
  (sc_apply_seccomp_bpf_returns_only_if world_trusted "snap.foo.bar".toList ⟨1000, 1000, 0⟩ 0
    (sc_apply_seccomp_bpf world_trusted "snap.foo.bar".toList (Proc.start ⟨1000, 1000, 0⟩)).proc
    (by decide)).2.2.2.2.1

end SeccompSupport
